import Mathlib

/-!
Verification development for the MLAI pipeline web crawler.

The Python source (`web_crawler.py`) is shallowly embedded below:
pure helpers (`should_exclude`, `is_downloadable_file`,
`get_file_type_and_extension`, `sanitize_filename`, the ledger
load/save) become Lean functions; the stateful two-phase crawl
(`extract_urls`, `extract_content`, `crawl`) becomes explicit state
passing over a `CrawlState` record, with the network, the `md5` hash
and the `html2text` converter supplied as explicit parameters (they
are external collaborators of the program).  Python exceptions are
modelled with `Except`, caught exactly where the source catches them.
-/

/-! ### Character and list-of-character helpers -/

/-- ASCII lowering of one character, the effect of Python `str.lower`
and of `re.IGNORECASE` comparison on the ASCII letters. -/
def lowChar (c : Char) : Char :=
  if 'A' ≤ c ∧ c ≤ 'Z' then Char.ofNat (c.toNat + 32) else c

/-- Character class `[a-z0-9]` under `re.IGNORECASE` (so uppercase
letters are accepted as well). -/
def isAz09 (c : Char) : Bool :=
  ('a' ≤ c && c ≤ 'z') || ('A' ≤ c && c ≤ 'Z') || ('0' ≤ c && c ≤ '9')

/-- Python regex word character `\w`, restricted to ASCII as used by
the sanitizer: letters, digits and underscore. -/
def isWordChar (c : Char) : Bool :=
  isAz09 c || c = '_'

/-- Lower an entire character list (Python `str.lower`). -/
def lowList (s : List Char) : List Char := s.map lowChar

/-- Python `str.lower` at string level (ASCII). -/
def strLower (s : String) : String := (lowList s.toList).asString

/-- Python `str.split(sep)` for a one-character separator. -/
def pySplitList (sep : Char) : List Char → List (List Char)
  | [] => [[]]
  | c :: rest =>
      let r := pySplitList sep rest
      if c = sep then [] :: r
      else
        match r with
        | [] => [[c]]
        | h :: t => (c :: h) :: t

/-- Python `str.split(sep)` at string level. -/
def pySplit (s : String) (sep : Char) : List String :=
  (pySplitList sep s.toList).map List.asString

/-- Does `pat` occur as a prefix of `s`, comparing case-insensitively?
This is the semantics of a `re.escape`d literal under `re.IGNORECASE`. -/
def ciPrefix (pat s : List Char) : Bool :=
  lowList pat <+: lowList (s.take pat.length) && pat.length ≤ s.length

/-- Does `pat` occur anywhere inside `s` (Python `pat in s` on strings)? -/
def listContains (pat s : List Char) : Bool :=
  (List.range (s.length + 1)).any fun i => pat <+: s.drop i

/-- String-level substring test, Python `a in b`. -/
def strContains (pat s : String) : Bool :=
  listContains pat.toList s.toList

/-- Python `s.endswith(p)`. -/
def strEndsWith (s p : String) : Bool :=
  p.toList <:+ s.toList

/-! ### URL parsing and joining

`urllib.parse.urlparse` and `urljoin` are standard-library
collaborators; they are embedded for the absolute `scheme://netloc/...`
shapes the crawler actually handles: the network location is what
stands between `://` and the next `/`, `?` or `#`, and the path is the
rest of the string up to `?` or `#`. -/

/-- First index at which `pat` occurs inside `s`, if any. -/
def findSub (pat s : List Char) : Option Nat :=
  (List.range (s.length + 1)).find? fun i => pat <+: s.drop i

/-- A parsed URL: the fields of `urllib.parse.urlparse` the crawler
reads. -/
structure PUrl where
  scheme : String
  netloc : String
  path : String
  deriving Repr, DecidableEq

/-- Embedding of `urllib.parse.urlparse`, limited to the scheme,
network-location and path components (query and fragment are split off
and discarded, as the crawler never reads them). -/
def parseUrl (url : String) : PUrl :=
  let s := url.toList
  match findSub "://".toList s with
  | some i =>
      let scheme := s.take i
      let rest := s.drop (i + 3)
      let netloc := rest.takeWhile fun c => c ≠ '/' && c ≠ '?' && c ≠ '#'
      let rest2 := rest.drop netloc.length
      let path := rest2.takeWhile fun c => c ≠ '?' && c ≠ '#'
      ⟨scheme.asString, netloc.asString, path.asString⟩
  | none =>
      let path := s.takeWhile fun c => c ≠ '?' && c ≠ '#'
      ⟨"", "", path.asString⟩

/-- `scheme://netloc` of a URL, the base used when resolving
root-relative references. -/
def schemeNetloc (url : String) : String :=
  let p := parseUrl url
  p.scheme ++ "://" ++ p.netloc

/-- Everything of `base` up to and including the last `/` of its path
part (used for resolving relative references); when the path has no
`/` a single one is introduced. -/
def baseForRel (base : String) : String :=
  let p := parseUrl base
  let path := p.path.toList
  let cut := (List.range path.length).foldl
    (fun acc i => if path.get? i = some '/' then i + 1 else acc) 0
  if cut = 0 then schemeNetloc base ++ "/"
  else schemeNetloc base ++ (path.take cut).asString

/-- Embedding of `urllib.parse.urljoin` for the reference shapes the
crawler meets: already-absolute references are returned unchanged,
root-relative ones are glued to `scheme://netloc`, other relative ones
replace the final path segment of the base. -/
def urljoin (base href : String) : String :=
  if listContains "://".toList href.toList then href
  else if "/".toList <+: href.toList then schemeNetloc base ++ href
  else baseForRel base ++ href

/-! ### The classifier (`is_downloadable_file`, `get_file_type_and_extension`) -/

/-- Does the optional trailing group `(\.[a-z0-9]+)?$` of the
classifier regexes accept `t` as the remainder of the path?  Either
nothing remains, or a dot followed by a nonempty alphanumeric run. -/
def tailSegOk (t : List Char) : Bool :=
  match t with
  | [] => true
  | '.' :: rest => rest ≠ [] && rest.all isAz09
  | _ => false

/-- `re.search` of `re.escape(ext) + r'(\.[a-z0-9]+)?$'` with
`re.IGNORECASE` on `path` (the URL-based matching step of
`get_file_type_and_extension`): somewhere in the path the literal
extension starts, and after it only an optional extra extension
segment remains. -/
def extMatch (ext path : List Char) : Bool :=
  (List.range (path.length + 1)).any fun i =>
    ciPrefix ext (path.drop i) && tailSegOk ((path.drop i).drop ext.length)

/-- Case-insensitive match of one unescaped alternation element of the
`is_downloadable_file` regex against a prefix of `s`: the extension
strings are interpolated without `re.escape`, so a `.` inside one acts
as the regex wildcard. -/
def wildPrefix (pat s : List Char) : Bool :=
  match pat, s with
  | [], _ => true
  | _ :: _, [] => false
  | p :: ps, c :: cs => (p = '.' || lowChar p = lowChar c) && wildPrefix ps cs

/-- `re.search` of `\.(alt1|alt2|...)(\.[a-z0-9]+)?$` with
`re.IGNORECASE` on `path`: the pattern `is_downloadable_file` builds
from the stripped configured extensions. -/
def dlPatternMatch (alts : List (List Char)) (path : List Char) : Bool :=
  (List.range (path.length + 1)).any fun i =>
    match path.drop i with
    | [] => false
    | c :: rest =>
        c = '.' && alts.any fun alt =>
          wildPrefix alt rest && tailSegOk (rest.drop alt.length)

/-- Python `ext.strip('.')`: remove every leading and trailing dot. -/
def stripDots (s : List Char) : List Char :=
  ((s.dropWhile (· = '.')).reverse.dropWhile (· = '.')).reverse

/-! ### Crawler configuration -/

/-- The crawler's configuration and external pure collaborators: the
constructor arguments of `WebCrawler` plus its fixed
`content_type_mapping`, with the `md5`-based 8-character URL hash and
the compiled locale regex supplied as functions. -/
structure Config where
  startUrl : String
  maxDepth : Nat
  excludedPaths : List String
  downloadExtensions : List (String × List String)
  contentTypeMapping : List (String × List (String × String))
  languagePattern : Option (String → Bool)
  baseDir : String
  hash : String → String

/-- `self.domain = urlparse(start_url).netloc`. -/
def Config.domain (cfg : Config) : String :=
  (parseUrl cfg.startUrl).netloc

/-- The default `download_extensions` table of `WebCrawler.__init__`. -/
def defaultDownloadExtensions : List (String × List String) :=
  [("PDF", [".pdf"]),
   ("Image", [".png", ".jpg", ".jpeg", ".gif", ".svg"]),
   ("Doc", [".doc", ".docx", ".xls", ".xlsx", ".ppt", ".pptx"])]

/-- The fixed `content_type_mapping` table of `WebCrawler.__init__`. -/
def defaultContentTypeMapping : List (String × List (String × String)) :=
  [("PDF", [("application/pdf", ".pdf")]),
   ("Image",
     [("image/jpeg", ".jpg"), ("image/png", ".png"),
      ("image/gif", ".gif"), ("image/svg+xml", ".svg")]),
   ("Doc",
     [("application/msword", ".doc"),
      ("application/vnd.openxmlformats-officedocument.wordprocessingml.document", ".docx"),
      ("application/vnd.ms-excel", ".xls"),
      ("application/vnd.openxmlformats-officedocument.spreadsheetml.sheet", ".xlsx"),
      ("application/vnd.ms-powerpoint", ".ppt"),
      ("application/vnd.openxmlformats-officedocument.presentationml.presentation", ".pptx")])]

/-- Association-list lookup used for the two mapping tables. -/
def alistFind : List (String × α) → String → Option α
  | [], _ => none
  | (k, v) :: rest, key => if k = key then some v else alistFind rest key

/-- `self.content_type_mapping[file_type].get(content_type, d)`. -/
def ctLookup (cfg : Config) (fileType contentType : String) : Option String :=
  (alistFind cfg.contentTypeMapping fileType).bind fun m => alistFind m contentType

/-- `WebCrawler.should_exclude`: some configured excluded path occurs
inside the URL string. -/
def should_exclude (cfg : Config) (url : String) : Bool :=
  cfg.excludedPaths.any fun excluded => strContains excluded url

/-- `WebCrawler.is_same_language`: no pattern means every URL passes,
otherwise `pattern.search(url)` must hit. -/
def is_same_language (cfg : Config) (url : String) : Bool :=
  match cfg.languagePattern with
  | none => true
  | some p => p url

/-- `WebCrawler.is_downloadable_file`: the lowered URL path is searched
with `\.(e1|e2|...)(\.[a-z0-9]+)?$` where each `ei` is a configured
extension with its surrounding dots stripped (and, being interpolated
unescaped, with inner dots acting as wildcards). -/
def is_downloadable_file (cfg : Config) (url : String) : Bool :=
  let path := lowList (parseUrl url).path.toList
  let alts := (cfg.downloadExtensions.flatMap Prod.snd).map
    fun ext => stripDots ext.toList
  dlPatternMatch alts path

/-- The URL-based first step of `get_file_type_and_extension`: the
first configured category, in table order, one of whose extensions
matches the lowered path; the matching extension is returned with it. -/
def urlTypeMatch (exts : List (String × List String)) (path : List Char) :
    Option (String × String) :=
  match exts with
  | [] => none
  | (ft, es) :: rest =>
      match es.find? fun ext => extMatch ext.toList path with
      | some ext => some (ft, ext)
      | none => urlTypeMatch rest path

/-- The content-type fallback second step of
`get_file_type_and_extension`: the first category whose mapping
contains the lowered content type. -/
def ctTypeMatch (mapping : List (String × List (String × String)))
    (contentType : String) : Option (String × String) :=
  match mapping with
  | [] => none
  | (ft, m) :: rest =>
      match alistFind m contentType with
      | some ext => some (ft, ext)
      | none => ctTypeMatch rest contentType

/-- `WebCrawler.get_file_type_and_extension`.  `contentType` stands for
`response.headers.get('Content-Type', '')`.  The URL path decides the
category first; the content type then only chooses the extension
through the matched category's mapping, with the literally matched
extension as fallback; only a URL with no matching extension falls
back to the pure content-type table. -/
def get_file_type_and_extension (cfg : Config) (url contentType : String) :
    Option (String × String) :=
  let path := lowList (parseUrl url).path.toList
  match urlTypeMatch cfg.downloadExtensions path with
  | some (ft, ext) =>
      some (ft, (ctLookup cfg ft (strLower contentType)).getD ext)
  | none => ctTypeMatch cfg.contentTypeMapping (strLower contentType)

/-! ### The filename codec (`sanitize_filename`) -/

/-- `os.path.splitext` on a bare filename: split at the last dot,
except that the leading dots of the name never start an extension. -/
def splitext (filename : List Char) : List Char × List Char :=
  let lead := (filename.takeWhile (· = '.')).length
  let cut := (List.range filename.length).foldl
    (fun acc i => if lead ≤ i ∧ filename.get? i = some '.' then some i else acc) none
  match cut with
  | some i => (filename.take i, filename.drop i)
  | none => (filename, [])

/-- Three-digit zero padding of the page number (`{page_number:03d}`). -/
def pad3 (n : Nat) : String :=
  if n < 10 then "00" ++ toString n
  else if n < 100 then "0" ++ toString n
  else toString n

/-- `WebCrawler.sanitize_filename`: 8-character URL hash (the `hash`
collaborator), last URL segment (or `index`) with unsafe characters
replaced by underscores and any extension dropped, an optional page
marker, then hash and resolved extension (defaulting to `.txt`). -/
def sanitize_filename (cfg : Config) (url fileType extension : String)
    (pageNumber : Option Nat) : String :=
  let url_hash := cfg.hash url
  let filename := (pySplit url '/').getLastD ""
  let filename := if filename = "" then "index" else filename
  let cleaned := filename.toList.map fun c =>
    if isWordChar c || c = '-' || c = '.' then c else '_'
  let name := (splitext cleaned).1.asString
  let extension := if extension = "" then ".txt" else extension
  match pageNumber with
  | some n => name ++ "_page_" ++ pad3 n ++ "_" ++ url_hash ++ extension
  | none => name ++ "_" ++ url_hash ++ extension

/-- `os.path.join` as the crawler uses it. -/
def pathJoin (a b c : String) : String :=
  a ++ "/" ++ b ++ "/" ++ c

/-- The destination path a categorized download is saved under. -/
def savePathFor (cfg : Config) (url fileType extension : String) : String :=
  pathJoin cfg.baseDir fileType (sanitize_filename cfg url fileType extension none)

/-! ### A shallow HTML model

`BeautifulSoup` is an external collaborator; the aspects the crawler
reads are embedded as a tree: element nodes carry tag name, class
list, optional id and optional `href` attribute.  A parsed document is
the list of its top-level nodes. -/

inductive Html where
  | el (tag : String) (classes : List String) (idAttr : Option String)
      (href : Option String) (children : List Html)
  | txt (s : String)
  deriving Repr

/-- Tag name of a node, if it is an element. -/
def Html.tagOf : Html → Option String
  | .el t _ _ _ _ => some t
  | .txt _ => none

/-- `href` attribute of a node, if any. -/
def Html.hrefOf : Html → Option String
  | .el _ _ _ h _ => h
  | .txt _ => none

/-- Does a node carry the given CSS class (`find(..., class_=c)` matches
when `c` is among the multi-valued class attribute)? -/
def Html.hasClass (c : String) : Html → Bool
  | .el _ cs _ _ _ => cs.contains c
  | .txt _ => false

/-- Does a node carry the given id attribute? -/
def Html.hasId (i : String) : Html → Bool
  | .el _ _ idA _ _ => idA = some i
  | .txt _ => false

mutual

/-- `element.decompose()` applied to every element whose tag is in
`bad`: the node is dropped together with its subtree, and the removal
recurses below surviving elements. -/
def removeTags (bad : List String) : Html → Option Html
  | .txt s => some (.txt s)
  | .el t cs i h ch =>
      if bad.contains t then none
      else some (.el t cs i h (removeTagsList bad ch))

/-- `removeTags` over a list of sibling nodes. -/
def removeTagsList (bad : List String) : List Html → List Html
  | [] => []
  | x :: xs =>
      match removeTags bad x with
      | some y => y :: removeTagsList bad xs
      | none => removeTagsList bad xs

end

mutual

/-- `soup.find(...)`: the first node in document (preorder) order
satisfying `p`, searching a single subtree. -/
def findNode (p : Html → Bool) (n : Html) : Option Html :=
  if p n then some n
  else match n with
    | .el _ _ _ _ ch => findList p ch
    | .txt _ => none

/-- `findNode` over sibling lists, in order. -/
def findList (p : Html → Bool) : List Html → Option Html
  | [] => none
  | x :: xs =>
      match findNode p x with
      | some y => some y
      | none => findList p xs

end

mutual

/-- `element.find_all(p)`: every node of a subtree satisfying `p`, in
document order, the root included. -/
def collectNode (p : Html → Bool) (n : Html) : List Html :=
  (if p n then [n] else []) ++
    (match n with
     | .el _ _ _ _ ch => collectList p ch
     | .txt _ => [])

/-- `collectNode` over sibling lists. -/
def collectList (p : Html → Bool) : List Html → List Html
  | [] => []
  | x :: xs => collectNode p x ++ collectList p xs

end

/-- The boilerplate tags removed by `extract_content` before the main
region is selected. -/
def boilerplateTags : List String :=
  ["nav", "header", "footer", "script", "style", "aside", "iframe"]

/-- The main-content selection of `extract_content`:
`soup.find('main') or soup.find('article') or
soup.find('div', class_='content') or soup.find('div', id='content')`. -/
def selectMain (doc : List Html) : Option Html :=
  match findList (fun n => n.tagOf = some "main") doc with
  | some m => some m
  | none =>
  match findList (fun n => n.tagOf = some "article") doc with
  | some a => some a
  | none =>
  match findList (fun n => n.tagOf = some "div" && n.hasClass "content") doc with
  | some d => some d
  | none => findList (fun n => n.tagOf = some "div" && n.hasId "content") doc

/-! ### The network model and the crawl state -/

/-- Outcome of the streamed download `GET` inside `download_file`:
complete, a byte-count mismatch against the declared length (the file
is written before the mismatch is noticed), or a raised request
error (nothing written). -/
inductive DlResult where
  | ok
  | incomplete
  | err
  deriving Repr, DecidableEq

/-- The remote site and network behaviour, supplied to the embedded
crawler: `pages` gives, per URL, `none` for a page whose fetch fails
and otherwise the `href`/`src` references its markup yields to the
phase-1 link scan; `ct` is the `Content-Type` header obtained by the
`HEAD`-with-`GET`-fallback probe (`none` when both raise); `dl` is the
outcome of the streamed download `GET`; `html` is the parse tree the
phase-2 fetch of a page produces (`none` when the fetch fails). -/
structure Web where
  pages : List (String × Option (List String))
  ct : String → Option String
  dl : String → DlResult
  html : String → Option (List Html)

/-- Phase-1 fetch and link scan of one page: `fetch_page_content`
followed by the `soup.find_all` loop. -/
def pageLinks (web : Web) (url : String) : Option (List String) :=
  (alistFind web.pages url).join

/-- The mutable crawler state: frontier queue, `visited_pages`,
`downloaded_files` (the ledger), the output file system, `stats`, and
event traces recording enqueues, dequeues, fetches, byte downloads,
warnings and phase-2 page visits. -/
structure CrawlState where
  queue : List (String × Nat)
  visited : List String
  ledger : List String
  fs : List String
  stats : List (String × Nat)
  enqTrace : List (String × Nat)
  deqTrace : List (String × Nat)
  fetchTrace : List (String × Nat)
  dlTrace : List String
  warns : List String
  pagesDone : List String

/-- Increment a named counter of the `stats` table. -/
def bumpStat (s : List (String × Nat)) (k : String) : List (String × Nat) :=
  match s with
  | [] => [(k, 1)]
  | (k2, v) :: rest => if k2 = k then (k2, v + 1) :: rest else (k2, v) :: bumpStat rest k

/-- Read a counter (`defaultdict(int)` semantics: absent means zero). -/
def getStat (s : List (String × Nat)) (k : String) : Nat :=
  (alistFind s k).getD 0

/-- `set.add`: insert a URL into a set kept as a duplicate-free list. -/
def insertSet (u : String) (l : List String) : List String :=
  if l.contains u then l else u :: l

/-- `WebCrawler.download_file`: probe the type with `HEAD`, give up on
an undetermined type, skip when the destination exists, otherwise
stream the bytes; only a complete download bumps the per-category
counter and records the URL in the ledger.  The returned flag is the
function's boolean result. -/
def download_file (cfg : Config) (web : Web) (st : CrawlState) (url fileType : String) :
    CrawlState × Bool :=
  match web.ct url with
  | none => (st, false)
  | some ctype =>
    match get_file_type_and_extension cfg url ctype with
    | none => (st, false)
    | some (ftd, ext) =>
      let sp := savePathFor cfg url ftd ext
      if st.fs.contains sp then (st, false)
      else
        let st := { st with dlTrace := st.dlTrace ++ [url] }
        match web.dl url with
        | .err => (st, false)
        | .incomplete => ({ st with fs := sp :: st.fs }, false)
        | .ok =>
            ({ st with fs := sp :: st.fs,
                       stats := bumpStat st.stats (ftd ++ "_downloaded"),
                       ledger := insertSet url st.ledger }, true)

/-- The enqueue guard of `extract_urls` (lines 567-571): the seed's
host occurs as a substring of the link's host (Python `in`), the
locale filter passes, the link is unvisited, it does not end in a
null-navigation fragment, and it is not excluded. -/
def enqCond (cfg : Config) (st : CrawlState) (au : String) : Bool :=
  strContains cfg.domain (parseUrl au).netloc &&
  is_same_language cfg au &&
  !(st.visited.contains au) &&
  !(strEndsWith au "#" || strEndsWith au "javascript:void(0)" ||
    strEndsWith au "javascript:;") &&
  !(should_exclude cfg au)

/-- The body of `extract_urls` for one scanned reference: downloadable
targets are probed, pre-checked against the destination path and
downloaded (the URL entering the ledger unconditionally afterwards,
line 563); other targets are enqueued when the seed's host occurs in
their host, the locale filter passes, they are unvisited, they do not
end in a null-navigation fragment and they are not excluded.  A probe
whose `HEAD` and fallback `GET` both raise escapes to the per-URL
handler (`Except.error`), abandoning the remaining references of the
page. -/
def linkStep (cfg : Config) (web : Web) (currentUrl : String) (depth : Nat)
    (st : CrawlState) (href : String) : Except CrawlState CrawlState :=
  let absolute_url := urljoin currentUrl href
  if is_downloadable_file cfg absolute_url then
    match web.ct absolute_url with
    | none => .error st
    | some ctype =>
      match get_file_type_and_extension cfg absolute_url ctype with
      | none => .ok st
      | some (ftd, _) =>
        let checkName := sanitize_filename cfg absolute_url ftd
          ((ctLookup cfg ftd (strLower ctype)).getD "") none
        let checkPath := pathJoin cfg.baseDir ftd checkName
        if st.fs.contains checkPath then .ok st
        else
          let st2 := (download_file cfg web st absolute_url ftd).1
          .ok { st2 with ledger := insertSet absolute_url st2.ledger }
  else
    if enqCond cfg st absolute_url then
      .ok { st with queue := st.queue ++ [(absolute_url, depth + 1)],
                    visited := absolute_url :: st.visited,
                    enqTrace := st.enqTrace ++ [(absolute_url, depth + 1)] }
    else .ok st

/-- The reference loop of `extract_urls`, stopping early when a
`linkStep` escapes with an exception (which the per-URL handler then
absorbs). -/
def linkFold (cfg : Config) (web : Web) (currentUrl : String) (depth : Nat) :
    CrawlState → List String → CrawlState
  | st, [] => st
  | st, h :: hs =>
      match linkStep cfg web currentUrl depth st h with
      | .ok st2 => linkFold cfg web currentUrl depth st2 hs
      | .error st2 => st2

/-- Processing of one dequeued frontier entry (the body of the
`extract_urls` while loop after `popleft`): over-depth and excluded
entries are dropped before any network activity; a downloadable entry
is probed, pre-checked and downloaded with an unconditional ledger
insertion afterwards (line 519); a page entry is fetched and scanned
for references. -/
def processEntry (cfg : Config) (web : Web) (st : CrawlState) (url : String)
    (depth : Nat) : CrawlState :=
  if cfg.maxDepth < depth then st
  else if should_exclude cfg url then st
  else
    let st := { st with fetchTrace := st.fetchTrace ++ [(url, depth)] }
    if is_downloadable_file cfg url then
      match web.ct url with
      | none => st
      | some ctype =>
        match get_file_type_and_extension cfg url ctype with
        | none => st
        | some (ftd, _) =>
          let checkName := sanitize_filename cfg url ftd
            ((ctLookup cfg ftd (strLower ctype)).getD "") none
          let checkPath := pathJoin cfg.baseDir ftd checkName
          if st.fs.contains checkPath then st
          else
            let st2 := (download_file cfg web st url ftd).1
            { st2 with ledger := insertSet url st2.ledger }
    else
      match pageLinks web url with
      | none => st
      | some hrefs => linkFold cfg web url depth st hrefs

/-- One iteration of the `extract_urls` while loop: dequeue the head
of the frontier and process it. -/
def crawlStep (cfg : Config) (web : Web) (st : CrawlState) : CrawlState :=
  match st.queue with
  | [] => st
  | (url, depth) :: rest =>
      processEntry cfg web
        { st with queue := rest, deqTrace := st.deqTrace ++ [(url, depth)] } url depth

/-- The `extract_urls` while loop, with explicit fuel. -/
def crawlLoop (cfg : Config) (web : Web) : Nat → CrawlState → CrawlState
  | 0, st => st
  | Nat.succ fuel, st =>
      match st.queue with
      | [] => st
      | _ :: _ => crawlLoop cfg web fuel (crawlStep cfg web st)

/-- The crawler state at the top of `extract_urls`: the seed is
enqueued at depth 0 and marked visited; the ledger and the output file
system carry whatever a prior run (or `load_downloaded_files`) left. -/
def initState (cfg : Config) (ledger0 fs0 : List String) : CrawlState :=
  { queue := [(cfg.startUrl, 0)], visited := [cfg.startUrl], ledger := ledger0,
    fs := fs0, stats := [], enqTrace := [(cfg.startUrl, 0)], deqTrace := [],
    fetchTrace := [], dlTrace := [], warns := [], pagesDone := [] }

/-- `WebCrawler.extract_urls` run to completion from the seed. -/
def extract_urls (cfg : Config) (web : Web) (ledger0 fs0 : List String)
    (fuel : Nat) : CrawlState :=
  crawlLoop cfg web fuel (initState cfg ledger0 fs0)

/-! ### Text cleaning (`clean_text`) and content assembly -/

/-- The control characters removed by the first substitution of
`clean_text`. -/
def isCtrlChar (c : Char) : Bool :=
  c.toNat ≤ 0x08 || c.toNat = 0x0B || c.toNat = 0x0C ||
  (0x0E ≤ c.toNat && c.toNat ≤ 0x1F) || (0x7F ≤ c.toNat && c.toNat ≤ 0x9F)

/-- Python regex `\s` on the ASCII range. -/
def pySpace (c : Char) : Bool :=
  c = ' ' || c = '\t' || c = '\n' || c = '\r' || c = '\x0b' || c = '\x0c'

/-- Horizontal whitespace, the class `[ \t]` of the second
substitution. -/
def hSpace (c : Char) : Bool :=
  c = ' ' || c = '\t'

/-- Dropping a while-prefix never lengthens a list (termination helper). -/
theorem dropWhile_len_le (p : Char → Bool) (l : List Char) :
    (l.dropWhile p).length ≤ l.length := by
  induction l with
  | nil => simp
  | cons c cs ih =>
      simp only [List.dropWhile]
      by_cases h : p c
      · simp [h]; omega
      · simp [h]

/-- `re.sub(r'[ \t]+', ' ', ...)`: collapse horizontal runs. -/
def collapseSpaces (l : List Char) : List Char :=
  match l with
  | [] => []
  | c :: rest =>
      if hSpace c then ' ' :: collapseSpaces (rest.dropWhile hSpace)
      else c :: collapseSpaces rest
termination_by l.length
decreasing_by
  · exact Nat.lt_succ_of_le (dropWhile_len_le hSpace rest)
  · simp

/-- The index of the last newline inside the maximal whitespace prefix
of `l`, if any: where the greedy `\s*` of `\n\s*\n` stops. -/
def lastNlIdx (l : List Char) : Option Nat :=
  let ws := l.takeWhile pySpace
  (List.range ws.length).foldl
    (fun acc i => if ws.get? i = some '\n' then some i else acc) none

/-- `re.sub(r'\n\s*\n', '\n\n', ...)`: left-to-right non-overlapping
replacement of whitespace spans delimited by newlines. -/
def collapseNl (l : List Char) : List Char :=
  match l with
  | [] => []
  | c :: rest =>
      if c = '\n' then
        match lastNlIdx rest with
        | some i => '\n' :: '\n' :: collapseNl (rest.drop (i + 1))
        | none => '\n' :: collapseNl rest
      else c :: collapseNl rest
termination_by l.length
decreasing_by
  · have h1 : (rest.drop (i + 1)).length ≤ rest.length := by simp
    have h2 : (c :: rest).length = rest.length + 1 := by simp
    omega
  · simp
  · simp

/-- Python `str.strip()` over the ASCII whitespace class. -/
def stripStr (s : String) : String :=
  ((s.toList.dropWhile pySpace).reverse.dropWhile pySpace).reverse.asString

/-- `WebCrawler.clean_text`: drop control characters, collapse
horizontal whitespace, collapse blank spans, trim. -/
def clean_text (s : String) : String :=
  if s = "" then ""
  else stripStr (collapseNl (collapseSpaces (s.toList.filter fun c => !isCtrlChar c))).asString

mutual

/-- Concatenated text of a subtree (`get_text`). -/
def textOf (n : Html) : String :=
  match n with
  | .txt s => s
  | .el _ _ _ _ ch => textOfList ch

/-- `textOf` over sibling lists. -/
def textOfList : List Html → String
  | [] => ""
  | x :: xs => textOf x ++ textOfList xs

end

/-- The reference-carrying tags rewritten and scanned by the content
extractor. -/
def linkTags : List String :=
  ["a", "embed", "iframe", "object"]

mutual

/-- `convert_links_to_absolute`: rewrite the reference attribute of
every link-carrying element to its absolute form. -/
def convertLinksAbs (base : String) (n : Html) : Html :=
  match n with
  | .txt s => .txt s
  | .el t cs i h ch =>
      let h2 := if linkTags.contains t then h.map (urljoin base) else h
      .el t cs i h2 (convertLinksAbsList base ch)

/-- `convertLinksAbs` over sibling lists. -/
def convertLinksAbsList (base : String) : List Html → List Html
  | [] => []
  | x :: xs => convertLinksAbs base x :: convertLinksAbsList base xs

end

/-- The references `main_content.find_all(['a', 'embed', 'iframe',
'object'], href=True)` yields: the attribute values of matching
descendants, in document order. -/
def downloadRefs (mc : Html) : List String :=
  let p : Html → Bool := fun n =>
    (match n.tagOf with
     | some t => linkTags.contains t
     | none => false) && n.hrefOf.isSome
  match mc with
  | .el _ _ _ _ ch => (collectList p ch).filterMap Html.hrefOf
  | .txt _ => []

/-! ### Phase-2 content extraction (`extract_content`) -/

/-- One in-page downloadable reference of `extract_content` (lines
439-464): resolved, gated on the ledger, probed, pre-checked against
the destination path and downloaded; a probe whose `HEAD` and fallback
`GET` both raise escapes to the function's handler. -/
def dlStep (cfg : Config) (web : Web) (pageUrl : String) (st : CrawlState)
    (href : String) : Except CrawlState CrawlState :=
  let file_url := urljoin pageUrl href
  if is_downloadable_file cfg file_url && !(st.ledger.contains file_url) then
    match web.ct file_url with
    | none => .error st
    | some ctype =>
      match get_file_type_and_extension cfg file_url ctype with
      | none => .ok st
      | some (ftd, _) =>
        let checkName := sanitize_filename cfg file_url ftd
          ((ctLookup cfg ftd (strLower ctype)).getD "") none
        let checkPath := pathJoin cfg.baseDir ftd checkName
        if st.fs.contains checkPath then .ok st
        else .ok (download_file cfg web st file_url ftd).1
  else .ok st

/-- The in-page download loop of `extract_content`. -/
def dlFold (cfg : Config) (web : Web) (pageUrl : String) :
    CrawlState → List String → CrawlState
  | st, [] => st
  | st, h :: hs =>
      match dlStep cfg web pageUrl st h with
      | .ok st2 => dlFold cfg web pageUrl st2 hs
      | .error st2 => st2

/-- `WebCrawler.extract_content` for one page: skip downloadable URLs,
fetch and parse, strip boilerplate, select the main region (warning
and no effect when none exists), assemble title, source line and
converted Markdown, clean, persist non-empty content under
`content/` with category `Doc` and extension `.txt`, bump
`pages_processed`, then run the in-page download loop.  `conv` stands
for `self.html_converter.handle(str(...))`. -/
def extract_content (cfg : Config) (web : Web) (conv : Html → String)
    (st : CrawlState) (url : String) : CrawlState :=
  if is_downloadable_file cfg url then st
  else
    match web.html url with
    | none => st
    | some doc =>
      let cleanedDoc := removeTagsList boilerplateTags doc
      match selectMain cleanedDoc with
      | none => { st with warns := st.warns ++ ["no-main-content:" ++ url] }
      | some mc =>
        let mc2 := convertLinksAbs url mc
        let markdown := conv mc2
        let titleParts :=
          match findList (fun n => n.tagOf = some "h1") cleanedDoc with
          | some t => ["# " ++ stripStr (textOf t)]
          | none => []
        let parts := titleParts ++ ["**Source:** " ++ url, markdown]
        let content := clean_text (String.intercalate "\n\n" parts)
        let st :=
          if content ≠ "" then
            { st with
              fs := pathJoin cfg.baseDir "content"
                  (sanitize_filename cfg url "Doc" ".txt" none) :: st.fs,
              stats := bumpStat st.stats "pages_processed" }
          else { st with warns := st.warns ++ ["no-significant-content:" ++ url] }
        dlFold cfg web url st (downloadRefs mc)

/-- Phase 2 of `crawl`: every visited URL that is not a downloadable
file is handed to `extract_content`, in order; each page is recorded
in `pagesDone` when its processing starts. -/
def phase2 (cfg : Config) (web : Web) (conv : Html → String)
    (st : CrawlState) : CrawlState :=
  let pages := st.visited.filter fun u => !(is_downloadable_file cfg u)
  pages.foldl
    (fun s u => extract_content cfg web conv { s with pagesDone := s.pagesDone ++ [u] } u)
    st

/-! ### The download ledger file and the run coordinator (`crawl`) -/

/-- `load_downloaded_files`: the persisted ledger is one URL per line;
an absent file leaves the in-memory set empty. -/
def load_downloaded_files (store : Option (List String)) : List String :=
  match store with
  | none => []
  | some lines => lines.foldl (fun s u => insertSet u s) []

/-- `save_downloaded_files`: the full in-memory set, sorted, replaces
the file's contents. -/
def save_downloaded_files (ledger : List String) : Option (List String) :=
  some (List.insertionSort (fun a b => a ≤ b) ledger.dedup)

/-- The `try`/`except`/`finally` skeleton of `WebCrawler.crawl`: the
ledger is loaded into the state handed to the phases, the phases run
(`Except.error s` standing for a crawl-fatal exception raised with
intermediate state `s`, which the `except` arm absorbs), and the
`finally` arm always persists the ledger. -/
def runCrawl (cfg : Config) (body : CrawlState → Except CrawlState CrawlState)
    (store : Option (List String)) (fs0 : List String) :
    CrawlState × Option (List String) :=
  let st0 := initState cfg (load_downloaded_files store) fs0
  let st1 :=
    match body st0 with
    | .ok s => s
    | .error s => s
  (st1, save_downloaded_files st1.ledger)

/-- `WebCrawler.crawl` with the two concrete phases as its body. -/
def crawl (cfg : Config) (web : Web) (conv : Html → String) (fuel : Nat)
    (store : Option (List String)) (fs0 : List String) :
    CrawlState × Option (List String) :=
  runCrawl cfg (fun st0 => .ok (phase2 cfg web conv (crawlLoop cfg web fuel st0)))
    store fs0

/-! ### Classifier lemmas -/

/-- A successful association-list lookup comes from a member pair. -/
theorem alistFind_mem {α : Type} {l : List (String × α)} {k : String} {v : α}
    (h : alistFind l k = some v) : (k, v) ∈ l := by
  induction l with
  | nil => simp [alistFind] at h
  | cons p rest ih =>
      obtain ⟨k2, v2⟩ := p
      by_cases hk : k2 = k
      · simp [alistFind, hk] at h
        simp [hk, h]
      · simp [alistFind, hk] at h
        exact List.mem_cons_of_mem _ (ih h)

/-- `ciPrefix` is the case-insensitive prefix relation. -/
theorem ciPrefix_iff {pat s : List Char} :
    ciPrefix pat s = true ↔ lowList pat <+: lowList s := by
  unfold ciPrefix
  simp only [Bool.and_eq_true, decide_eq_true_iff]
  constructor
  · rintro ⟨hp, _⟩
    have h2 : lowList (s.take pat.length) <+: lowList s := by
      unfold lowList
      rw [List.map_take]
      exact List.take_prefix _ _
    exact List.IsPrefix.trans hp h2
  · intro hp
    have hl : pat.length ≤ s.length := by
      have := hp.length_le
      simpa [lowList] using this
    refine ⟨?_, hl⟩
    unfold lowList
    rw [List.map_take, List.prefix_take_iff]
    exact ⟨hp, by simp [lowList]⟩

/-- Does some configured extension of some category match the path?
The decidable form of the URL-matching hypothesis. -/
def urlHasExtMatch (exts : List (String × List String)) (path : List Char) : Bool :=
  exts.any fun p => p.2.any fun ext => extMatch ext.toList path

/-- A successful URL-based match names a member category and a member
extension that matches the path. -/
theorem urlTypeMatch_some_mem {exts : List (String × List String)} {path : List Char}
    {ft ext : String} (h : urlTypeMatch exts path = some (ft, ext)) :
    ∃ es, (ft, es) ∈ exts ∧ ext ∈ es ∧ extMatch ext.toList path = true := by
  induction exts with
  | nil => simp [urlTypeMatch] at h
  | cons p rest ih =>
      obtain ⟨ft2, es2⟩ := p
      unfold urlTypeMatch at h
      cases hf : es2.find? fun e => extMatch e.toList path with
      | some e =>
          rw [hf] at h
          simp only [Option.some.injEq, Prod.mk.injEq] at h
          obtain ⟨h1, h2⟩ := h
          subst h1; subst h2
          refine ⟨es2, List.mem_cons_self _ _, List.mem_of_find?_eq_some hf, ?_⟩
          have h3 := List.find?_some hf
          simpa using h3
      | none =>
          rw [hf] at h
          obtain ⟨es, hmem, hext, hm⟩ := ih h
          exact ⟨es, List.mem_cons_of_mem _ hmem, hext, hm⟩

/-- When some configured extension matches the path, the URL-based
step succeeds. -/
theorem urlTypeMatch_isSome {exts : List (String × List String)} {path : List Char}
    (h : urlHasExtMatch exts path = true) : (urlTypeMatch exts path).isSome = true := by
  induction exts with
  | nil => simp [urlHasExtMatch] at h
  | cons p rest ih =>
      obtain ⟨ft2, es2⟩ := p
      unfold urlHasExtMatch at h
      rw [List.any_cons] at h
      unfold urlTypeMatch
      cases hf : es2.find? fun e => extMatch e.toList path with
      | some e => simp
      | none =>
          rcases Bool.or_eq_true_iff.mp h with h1 | h1
          · exfalso
            have h2 : (es2.find? fun e => extMatch e.toList path).isSome = true := by
              rw [List.find?_isSome]
              simpa using h1
            rw [hf] at h2
            simp at h2
          · exact ih h1

/-- A concrete crawler instance with the default extension and
content-type tables, used to instantiate the general theorems. -/
def exampleCfg : Config :=
  { startUrl := "https://example.test/",
    maxDepth := 1,
    excludedPaths := ["selecteur-de-produits"],
    downloadExtensions := defaultDownloadExtensions,
    contentTypeMapping := defaultContentTypeMapping,
    languagePattern := none,
    baseDir := "crawler_output",
    hash := fun _ => "12345678" }

/-- The lowered URL path the classifier regexes are run on. -/
def classifierPath (url : String) : List Char :=
  lowList (parseUrl url).path.toList

/-- Claim C1: when the URL path matches a configured download
extension of some category, `get_file_type_and_extension` returns a
category chosen from the URL alone — the same category for every
response content type; the content type only replaces the returned
extension through the matched category's mapping, the literally
matched URL extension being returned when the content type is absent
from it.  (The hypothesis on the mapping keeps the embedding inside
the domain where the source's `content_type_mapping[file_type]` access
cannot raise.) -/
theorem classify_url_decides_category (cfg : Config) (url : String)
    (hmap : (cfg.downloadExtensions.all fun p =>
      (alistFind cfg.contentTypeMapping p.1).isSome) = true)
    (h : urlHasExtMatch cfg.downloadExtensions (classifierPath url) = true) :
    ∃ ft ext,
      (∃ es, (ft, es) ∈ cfg.downloadExtensions ∧ ext ∈ es ∧
        extMatch ext.toList (classifierPath url) = true) ∧
      ∀ contentType, get_file_type_and_extension cfg url contentType =
        some (ft, (ctLookup cfg ft (strLower contentType)).getD ext) := by
  clear hmap
  have hs := @urlTypeMatch_isSome cfg.downloadExtensions (classifierPath url) h
  cases hu : urlTypeMatch cfg.downloadExtensions (classifierPath url) with
  | none => rw [hu] at hs; simp at hs
  | some pr =>
      obtain ⟨ft, ext⟩ := pr
      refine ⟨ft, ext, urlTypeMatch_some_mem hu, ?_⟩
      intro contentType
      show (match urlTypeMatch cfg.downloadExtensions (classifierPath url) with
            | some (ft, ext) =>
                some (ft, (ctLookup cfg ft (strLower contentType)).getD ext)
            | none => ctTypeMatch cfg.contentTypeMapping (strLower contentType)) =
          some (ft, (ctLookup cfg ft (strLower contentType)).getD ext)
      rw [hu]

/-- Witness for C1 at the spec's own example: `/brochure.pdf` with
response content type `image/png` classifies as `PDF` with extension
`.pdf`, never as `Image`. -/
theorem classify_url_decides_category_witness :
    ((exampleCfg.downloadExtensions.all fun p =>
        (alistFind exampleCfg.contentTypeMapping p.1).isSome) = true) ∧
    (urlHasExtMatch exampleCfg.downloadExtensions
      (classifierPath "https://example.test/brochure.pdf") = true) ∧
    (get_file_type_and_extension exampleCfg
      "https://example.test/brochure.pdf" "image/png" = some ("PDF", ".pdf")) ∧
    (∃ ft ext,
      (∃ es, (ft, es) ∈ exampleCfg.downloadExtensions ∧ ext ∈ es ∧
        extMatch ext.toList (classifierPath "https://example.test/brochure.pdf") = true) ∧
      ∀ contentType, get_file_type_and_extension exampleCfg
          "https://example.test/brochure.pdf" contentType =
        some (ft, (ctLookup exampleCfg ft (strLower contentType)).getD ext)) :=
  ⟨by decide, by decide, by decide,
    classify_url_decides_category exampleCfg "https://example.test/brochure.pdf"
      (by decide) (by decide)⟩

/-- Lowercase-letter-or-digit, the shape of the default extension
bodies. -/
def azl (c : Char) : Bool :=
  ('a' ≤ c && c ≤ 'z') || ('0' ≤ c && c ≤ '9')

/-- A well-formed configured extension: a dot followed by a nonempty
lowercase alphanumeric run (every default extension has this shape).
For such extensions the unescaped interpolation in
`is_downloadable_file` contains no regex metacharacters. -/
def wfExt (ext : String) : Bool :=
  match ext.toList with
  | c :: t => c = '.' && t ≠ [] && t.all azl
  | [] => false

/-- All configured extensions across all categories are well-formed. -/
def wellFormedExts (cfg : Config) : Bool :=
  cfg.downloadExtensions.all fun p => p.2.all wfExt

/-- A lowercase alphanumeric character is not a dot. -/
theorem azl_ne_dot {c : Char} (h : azl c = true) : c ≠ '.' := by
  intro hc
  subst hc
  simp [azl] at h

/-- `dropWhile` on a dot test leaves a dot-free list unchanged. -/
theorem dropWhile_dot_eq_self {l : List Char} (h : ∀ c ∈ l, c ≠ '.') :
    l.dropWhile (· = '.') = l := by
  cases l with
  | nil => rfl
  | cons c rest =>
      have hc : c ≠ '.' := h c (List.mem_cons_self _ _)
      simp [List.dropWhile_cons, hc]

/-- Stripping dots from a well-formed extension removes exactly the
leading dot. -/
theorem stripDots_wf {t : List Char} (h : ∀ c ∈ t, azl c = true) :
    stripDots ('.' :: t) = t := by
  have hnd : ∀ c ∈ t, c ≠ '.' := fun c hc => azl_ne_dot (h c hc)
  unfold stripDots
  have h1 : ('.' :: t).dropWhile (· = '.') = t.dropWhile (· = '.') := by
    simp [List.dropWhile_cons]
  rw [h1, dropWhile_dot_eq_self hnd]
  have hrev : ∀ c ∈ t.reverse, c ≠ '.' := by
    intro c hc
    exact hnd c (List.mem_reverse.mp hc)
  rw [dropWhile_dot_eq_self hrev, List.reverse_reverse]

/-- A dot-free wildcard-pattern match is a case-insensitive prefix. -/
theorem wildPrefix_imp_prefix {pat s : List Char} (hnd : ∀ c ∈ pat, c ≠ '.')
    (h : wildPrefix pat s = true) : lowList pat <+: lowList s := by
  induction pat generalizing s with
  | nil => simp [lowList]
  | cons p ps ih =>
      cases s with
      | nil => simp [wildPrefix] at h
      | cons c cs =>
          unfold wildPrefix at h
          rw [Bool.and_eq_true] at h
          obtain ⟨h1, h2⟩ := h
          have hp : p ≠ '.' := hnd p (List.mem_cons_self _ _)
          have hlow : lowChar p = lowChar c := by
            rcases Bool.or_eq_true_iff.mp h1 with h3 | h3
            · exact absurd (by simpa using h3) hp
            · simpa using h3
          have hrest := ih (fun d hd => hnd d (List.mem_cons_of_mem _ hd)) h2
          simp only [lowList, List.map_cons]
          rw [hlow]
          exact (List.cons_prefix_cons).mpr ⟨rfl, hrest⟩

/-- Claim C10: on well-formed extension configurations, every URL that
`is_downloadable_file` accepts is also matched by the URL-based step
of `get_file_type_and_extension`, so the classifier returns a category
for it whatever the response's content type. -/
theorem downloadable_implies_classifiable (cfg : Config) (url : String)
    (hwf : wellFormedExts cfg = true)
    (h : is_downloadable_file cfg url = true) :
    (urlTypeMatch cfg.downloadExtensions (classifierPath url)).isSome = true ∧
    ∀ contentType, (get_file_type_and_extension cfg url contentType).isSome = true := by
  have hmain : urlHasExtMatch cfg.downloadExtensions (classifierPath url) = true := by
    unfold is_downloadable_file at h
    have h2 : dlPatternMatch
        ((cfg.downloadExtensions.flatMap Prod.snd).map fun ext => stripDots ext.toList)
        (classifierPath url) = true := h
    unfold dlPatternMatch at h2
    rw [List.any_eq_true] at h2
    obtain ⟨i, hi, hmatch⟩ := h2
    cases hdrop : (classifierPath url).drop i with
    | nil => rw [hdrop] at hmatch; simp at hmatch
    | cons c rest =>
        rw [hdrop] at hmatch
        rw [Bool.and_eq_true] at hmatch
        obtain ⟨hc, halt⟩ := hmatch
        have hc2 : c = '.' := by simpa using hc
        subst hc2
        rw [List.any_eq_true] at halt
        obtain ⟨alt, haltmem, haltm⟩ := halt
        rw [List.mem_map] at haltmem
        obtain ⟨ext, hextmem, haltdef⟩ := haltmem
        rw [List.mem_flatMap] at hextmem
        obtain ⟨p, hpmem, hextes⟩ := hextmem
        have hwfe : wfExt ext = true := by
          have h1 := List.all_eq_true.mp hwf p hpmem
          exact List.all_eq_true.mp h1 ext hextes
        unfold wfExt at hwfe
        cases hext : ext.toList with
        | nil => rw [hext] at hwfe; simp at hwfe
        | cons d t =>
            rw [hext] at hwfe
            simp only [Bool.and_eq_true, decide_eq_true_iff] at hwfe
            obtain ⟨⟨hd, _⟩, hall⟩ := hwfe
            subst hd
            have halt2 : alt = t := by
              rw [← haltdef, hext]
              exact stripDots_wf fun c hc => List.all_eq_true.mp hall c hc
            subst halt2
            rw [Bool.and_eq_true] at haltm
            obtain ⟨hw, hts⟩ := haltm
            have hpre := wildPrefix_imp_prefix
              (fun c hc => azl_ne_dot (List.all_eq_true.mp hall c hc)) hw
            have hextm : extMatch ext.toList (classifierPath url) = true := by
              unfold extMatch
              rw [List.any_eq_true]
              refine ⟨i, hi, ?_⟩
              rw [hdrop, hext, Bool.and_eq_true]
              constructor
              · rw [ciPrefix_iff]
                simp only [lowList, List.map_cons]
                exact (List.cons_prefix_cons).mpr ⟨rfl, hpre⟩
              · simpa using hts
            unfold urlHasExtMatch
            rw [List.any_eq_true]
            refine ⟨p, hpmem, ?_⟩
            rw [List.any_eq_true]
            exact ⟨ext, hextes, hextm⟩
  refine ⟨urlTypeMatch_isSome hmain, ?_⟩
  intro contentType
  have hs := @urlTypeMatch_isSome cfg.downloadExtensions (classifierPath url) hmain
  cases hu : urlTypeMatch cfg.downloadExtensions (classifierPath url) with
  | none => rw [hu] at hs; simp at hs
  | some pr =>
      obtain ⟨ft, ext⟩ := pr
      show (match urlTypeMatch cfg.downloadExtensions (classifierPath url) with
            | some (ft, ext) =>
                some (ft, (ctLookup cfg ft (strLower contentType)).getD ext)
            | none => ctTypeMatch cfg.contentTypeMapping (strLower contentType)).isSome = true
      rw [hu]
      simp

/-- Witness for C10: the default configuration is well-formed, the
example PDF URL is downloadable, and the classifier resolves it for
every content type. -/
theorem downloadable_implies_classifiable_witness :
    (wellFormedExts exampleCfg = true) ∧
    (is_downloadable_file exampleCfg "https://example.test/report.pdf.aspx" = true) ∧
    ((urlTypeMatch exampleCfg.downloadExtensions
        (classifierPath "https://example.test/report.pdf.aspx")).isSome = true ∧
      ∀ contentType, (get_file_type_and_extension exampleCfg
        "https://example.test/report.pdf.aspx" contentType).isSome = true) :=
  ⟨by decide, by decide,
    downloadable_implies_classifiable exampleCfg "https://example.test/report.pdf.aspx"
      (by decide) (by decide)⟩

/-! ### Frontier-walker invariants -/

/-- State carried out of an `Except`-modelled `try` body: the caught
exception's state or the normal result. -/
def resState (r : Except CrawlState CrawlState) : CrawlState :=
  match r with
  | .ok s => s
  | .error s => s

/-- Every absolute URL the run can ever enqueue: the seed plus the
resolution of every reference of every page of the site. -/
def urlUniverse (cfg : Config) (web : Web) : List String :=
  cfg.startUrl :: web.pages.flatMap fun p => (p.2.getD []).map (urljoin p.1)

/-- The master frontier invariant: the enqueue trace is the dequeue
trace followed by the live queue (FIFO bookkeeping), enqueued URLs are
pairwise distinct, the visited set is exactly the set of enqueued
URLs, it is duplicate-free and contained in the URL universe, and
every fetch happened at a depth within the bound. -/
def CrawlInv (cfg : Config) (web : Web) (st : CrawlState) : Prop :=
  st.enqTrace = st.deqTrace ++ st.queue ∧
  (st.enqTrace.map Prod.fst).Nodup ∧
  (∀ u, u ∈ st.visited ↔ u ∈ st.enqTrace.map Prod.fst) ∧
  st.visited.Nodup ∧
  (∀ u ∈ st.visited, u ∈ urlUniverse cfg web) ∧
  (∀ pr ∈ st.fetchTrace, pr.2 ≤ cfg.maxDepth)

/-- The termination measure of the frontier loop: how many universe
URLs are still unvisited, plus the queue length. -/
def msr (cfg : Config) (web : Web) (st : CrawlState) : Nat :=
  ((urlUniverse cfg web).toFinset.card - st.visited.length) + st.queue.length

/-- A duplicate-free subset of the universe is no longer than the
universe's carrier. -/
theorem visited_len_le (cfg : Config) (web : Web) {vis : List String}
    (hnd : vis.Nodup) (hsub : ∀ u ∈ vis, u ∈ urlUniverse cfg web) :
    vis.length ≤ (urlUniverse cfg web).toFinset.card := by
  rw [← List.toFinset_card_of_nodup hnd]
  apply Finset.card_le_card
  intro x hx
  rw [List.mem_toFinset] at hx ⊢
  exact hsub x hx

/-- `download_file` never touches the frontier bookkeeping: queue,
visited set, traces and phase-2 log are returned unchanged. -/
theorem download_file_frontier (cfg : Config) (web : Web) (st : CrawlState)
    (url ft : String) :
    (download_file cfg web st url ft).1.queue = st.queue ∧
    (download_file cfg web st url ft).1.visited = st.visited ∧
    (download_file cfg web st url ft).1.enqTrace = st.enqTrace ∧
    (download_file cfg web st url ft).1.deqTrace = st.deqTrace ∧
    (download_file cfg web st url ft).1.fetchTrace = st.fetchTrace ∧
    (download_file cfg web st url ft).1.pagesDone = st.pagesDone := by
  unfold download_file
  cases hct : web.ct url with
  | none => simp
  | some ctype =>
      cases hg : get_file_type_and_extension cfg url ctype with
      | none => simp [hg]
      | some pr =>
          obtain ⟨ftd, ext⟩ := pr
          by_cases hfs : savePathFor cfg url ftd ext ∈ st.fs
          · simp [hg, hfs]
          · cases hdl : web.dl url <;> simp [hg, hfs, hdl]

/-- Case analysis of `linkStep`: either the frontier bookkeeping is
untouched (download branches, filtered-out links), or the link passed
every enqueue condition and was appended to the queue, the visited set
and the enqueue trace — in which case it was not yet visited. -/
theorem linkStep_cases (cfg : Config) (web : Web) (cur : String) (d : Nat)
    (st : CrawlState) (href : String) :
    (let st2 := resState (linkStep cfg web cur d st href)
     st2.queue = st.queue ∧ st2.visited = st.visited ∧ st2.enqTrace = st.enqTrace ∧
     st2.deqTrace = st.deqTrace ∧ st2.fetchTrace = st.fetchTrace ∧
     st2.pagesDone = st.pagesDone) ∨
    (resState (linkStep cfg web cur d st href) =
      { st with queue := st.queue ++ [(urljoin cur href, d + 1)],
                visited := urljoin cur href :: st.visited,
                enqTrace := st.enqTrace ++ [(urljoin cur href, d + 1)] } ∧
      urljoin cur href ∉ st.visited) := by
  unfold linkStep
  by_cases h1 : is_downloadable_file cfg (urljoin cur href) = true
  · cases hct : web.ct (urljoin cur href) with
    | none => left; simp [h1, hct, resState]
    | some ctype =>
        cases hg : get_file_type_and_extension cfg (urljoin cur href) ctype with
        | none => left; simp [h1, hct, hg, resState]
        | some pr =>
            obtain ⟨ftd, ext0⟩ := pr
            by_cases hfs : pathJoin cfg.baseDir ftd
                (sanitize_filename cfg (urljoin cur href) ftd
                  ((ctLookup cfg ftd (strLower ctype)).getD "") none) ∈ st.fs
            · left; simp [h1, hct, hg, hfs, resState]
            · left
              have hdf := download_file_frontier cfg web st (urljoin cur href) ftd
              simp [h1, hct, hg, hfs, resState, hdf.1, hdf.2.1, hdf.2.2.1,
                hdf.2.2.2.1, hdf.2.2.2.2.1, hdf.2.2.2.2.2]
  · cases hcond : enqCond cfg st (urljoin cur href) with
    | true =>
        right
        refine ⟨by simp [h1, hcond, resState], ?_⟩
        unfold enqCond at hcond
        simp only [Bool.and_eq_true, Bool.not_eq_true'] at hcond
        have h4 : st.visited.contains (urljoin cur href) = false := hcond.1.1.2
        simpa using h4
    | false => left; simp [h1, hcond, resState]

/-- `linkStep` preserves the master invariant and never increases the
termination measure, provided the resolved link lies in the URL
universe. -/
theorem linkStep_inv (cfg : Config) (web : Web) (cur : String) (d : Nat)
    (st : CrawlState) (href : String) (hInv : CrawlInv cfg web st)
    (hU : urljoin cur href ∈ urlUniverse cfg web) :
    CrawlInv cfg web (resState (linkStep cfg web cur d st href)) ∧
    msr cfg web (resState (linkStep cfg web cur d st href)) ≤ msr cfg web st := by
  rcases linkStep_cases cfg web cur d st href with h | ⟨heq, hnv⟩
  · obtain ⟨hq, hv, he, hd2, hf, _⟩ := h
    constructor
    · obtain ⟨i1, i2, i3, i4, i5, i6⟩ := hInv
      exact ⟨by rw [he, hd2, hq]; exact i1, by rw [he]; exact i2,
        fun u => by rw [hv, he]; exact i3 u, by rw [hv]; exact i4,
        fun u hu => i5 u (by rw [hv] at hu; exact hu),
        fun pr hpr => i6 pr (by rw [hf] at hpr; exact hpr)⟩
    · unfold msr
      rw [hq, hv]
  · obtain ⟨h1, h2, h3, h4, h5, h6⟩ := hInv
    rw [heq]
    have hnotenq : urljoin cur href ∉ st.enqTrace.map Prod.fst :=
      fun hc => hnv ((h3 _).mpr hc)
    have hnd2 : (urljoin cur href :: st.visited).Nodup := List.nodup_cons.mpr ⟨hnv, h4⟩
    have hsub2 : ∀ u ∈ urljoin cur href :: st.visited, u ∈ urlUniverse cfg web := by
      intro u hu
      rcases List.mem_cons.mp hu with rfl | hu2
      · exact hU
      · exact h5 u hu2
    constructor
    · refine ⟨?_, ?_, ?_, hnd2, hsub2, h6⟩
      · show st.enqTrace ++ [(urljoin cur href, d + 1)] =
          st.deqTrace ++ (st.queue ++ [(urljoin cur href, d + 1)])
        rw [h1, List.append_assoc]
      · show ((st.enqTrace ++ [(urljoin cur href, d + 1)]).map Prod.fst).Nodup
        rw [List.map_append]
        rw [List.nodup_append]
        refine ⟨h2, by simp, ?_⟩
        intro x hx
        simp only [List.map_cons, List.map_nil, List.mem_singleton]
        intro hx2
        subst hx2
        exact hnotenq hx
      · intro u
        show u ∈ urljoin cur href :: st.visited ↔
          u ∈ (st.enqTrace ++ [(urljoin cur href, d + 1)]).map Prod.fst
        rw [List.map_append, List.mem_append, List.mem_cons, h3 u]
        simp only [List.map_cons, List.map_nil, List.mem_singleton]
        tauto
    · unfold msr
      have hle : st.visited.length + 1 ≤ (urlUniverse cfg web).toFinset.card := by
        have h7 := visited_len_le cfg web hnd2 hsub2
        simpa using h7
      simp only [List.length_append, List.length_cons, List.length_nil]
      omega

/-- `linkFold` preserves the master invariant and never increases the
measure when every scanned reference resolves into the universe. -/
theorem linkFold_inv (cfg : Config) (web : Web) (cur : String) (d : Nat)
    (hrefs : List String) : ∀ st : CrawlState, CrawlInv cfg web st →
    (∀ h ∈ hrefs, urljoin cur h ∈ urlUniverse cfg web) →
    CrawlInv cfg web (linkFold cfg web cur d st hrefs) ∧
    msr cfg web (linkFold cfg web cur d st hrefs) ≤ msr cfg web st := by
  induction hrefs with
  | nil => intro st hInv _; exact ⟨hInv, Nat.le_refl _⟩
  | cons h hs ih =>
      intro st hInv hU
      have hstep := linkStep_inv cfg web cur d st h hInv (hU h (List.mem_cons_self _ _))
      unfold linkFold
      cases hres : linkStep cfg web cur d st h with
      | ok st2 =>
          rw [hres] at hstep
          have h2 := ih st2 hstep.1 fun x hx => hU x (List.mem_cons_of_mem _ hx)
          exact ⟨h2.1, Nat.le_trans h2.2 hstep.2⟩
      | error st2 =>
          rw [hres] at hstep
          exact hstep

/-- Every reference scanned off a successfully fetched page resolves
into the URL universe. -/
theorem pageLinks_univ (cfg : Config) (web : Web) (url : String) (hrefs : List String)
    (h : pageLinks web url = some hrefs) :
    ∀ hr ∈ hrefs, urljoin url hr ∈ urlUniverse cfg web := by
  intro hr hhr
  unfold pageLinks at h
  cases ha : alistFind web.pages url with
  | none => rw [ha] at h; simp [Option.join] at h
  | some v =>
      rw [ha] at h
      cases v with
      | none => simp [Option.join] at h
      | some hrefs2 =>
          simp [Option.join] at h
          subst h
          have hmem := alistFind_mem ha
          unfold urlUniverse
          apply List.mem_cons_of_mem
          rw [List.mem_flatMap]
          refine ⟨(url, some hrefs2), hmem, ?_⟩
          simp only [Option.getD_some]
          exact List.mem_map_of_mem _ hhr

/-- One dequeued entry preserves the master invariant and never
increases the measure. -/
theorem processEntry_inv (cfg : Config) (web : Web) (st : CrawlState)
    (url : String) (d : Nat) (hInv : CrawlInv cfg web st) :
    CrawlInv cfg web (processEntry cfg web st url d) ∧
    msr cfg web (processEntry cfg web st url d) ≤ msr cfg web st := by
  unfold processEntry
  by_cases hd : cfg.maxDepth < d
  · simp only [hd, if_true]
    exact ⟨hInv, Nat.le_refl _⟩
  · cases hex : should_exclude cfg url with
    | true =>
        simp only [hd, if_false, hex, if_true]
        exact ⟨hInv, Nat.le_refl _⟩
    | false =>
        obtain ⟨i1, i2, i3, i4, i5, i6⟩ := hInv
        have hInv2 : CrawlInv cfg web
            { st with fetchTrace := st.fetchTrace ++ [(url, d)] } := by
          refine ⟨i1, i2, i3, i4, i5, ?_⟩
          intro pr hpr
          rcases List.mem_append.mp hpr with hpr2 | hpr2
          · exact i6 pr hpr2
          · rw [List.mem_singleton] at hpr2
            subst hpr2
            exact Nat.le_of_not_lt hd
        have hmsr2 : msr cfg web { st with fetchTrace := st.fetchTrace ++ [(url, d)] } =
            msr cfg web st := rfl
        simp only [hd, if_false, hex, Bool.false_eq_true, if_false]
        cases hdl : is_downloadable_file cfg url with
        | true =>
            simp only [hdl, if_true]
            cases hct : web.ct url with
            | none => simp only [hct]; exact ⟨hInv2, Nat.le_of_eq hmsr2⟩
            | some ctype =>
                simp only [hct]
                cases hg : get_file_type_and_extension cfg url ctype with
                | none => simp only [hg]; exact ⟨hInv2, Nat.le_of_eq hmsr2⟩
                | some pr =>
                    obtain ⟨ftd, ext0⟩ := pr
                    simp only [hg]
                    by_cases hfs : pathJoin cfg.baseDir ftd
                        (sanitize_filename cfg url ftd
                          ((ctLookup cfg ftd (strLower ctype)).getD "") none) ∈
                        { st with fetchTrace := st.fetchTrace ++ [(url, d)] }.fs
                    · rw [if_pos (by simpa using hfs)]
                      exact ⟨hInv2, Nat.le_of_eq hmsr2⟩
                    · rw [if_neg (by simpa using hfs)]
                      set st1 := { st with fetchTrace := st.fetchTrace ++ [(url, d)] }
                      have hdf := download_file_frontier cfg web st1 url ftd
                      obtain ⟨j1, j2, j3, j4, j5, _⟩ := hdf
                      obtain ⟨k1, k2, k3, k4, k5, k6⟩ := hInv2
                      constructor
                      · exact ⟨by rw [j3, j4, j1]; exact k1, by rw [j3]; exact k2,
                          fun u => by rw [j2, j3]; exact k3 u, by rw [j2]; exact k4,
                          fun u hu => k5 u (by rw [j2] at hu; exact hu),
                          fun pr hpr => k6 pr (by rw [j5] at hpr; exact hpr)⟩
                      · unfold msr
                        rw [j1, j2]
        | false =>
            simp only [hdl, Bool.false_eq_true, if_false]
            cases hpl : pageLinks web url with
            | none => simp only [hpl]; exact ⟨hInv2, Nat.le_of_eq hmsr2⟩
            | some hrefs =>
                simp only [hpl]
                have hfold := linkFold_inv cfg web url d hrefs
                  { st with fetchTrace := st.fetchTrace ++ [(url, d)] } hInv2
                  (pageLinks_univ cfg web url hrefs hpl)
                exact ⟨hfold.1, Nat.le_trans hfold.2 (Nat.le_of_eq hmsr2)⟩

/-- One loop iteration on a nonempty queue preserves the invariant and
strictly decreases the measure. -/
theorem crawlStep_inv (cfg : Config) (web : Web) (st : CrawlState)
    (url : String) (d : Nat) (rest : List (String × Nat))
    (hq : st.queue = (url, d) :: rest) (hInv : CrawlInv cfg web st) :
    CrawlInv cfg web (crawlStep cfg web st) ∧
    msr cfg web (crawlStep cfg web st) < msr cfg web st := by
  unfold crawlStep
  rw [hq]
  obtain ⟨i1, i2, i3, i4, i5, i6⟩ := hInv
  have hInv1 : CrawlInv cfg web
      { st with queue := rest, deqTrace := st.deqTrace ++ [(url, d)] } := by
    refine ⟨?_, i2, i3, i4, i5, i6⟩
    show st.enqTrace = (st.deqTrace ++ [(url, d)]) ++ rest
    rw [i1, hq, List.append_assoc]
    rfl
  have hpe := processEntry_inv cfg web
    { st with queue := rest, deqTrace := st.deqTrace ++ [(url, d)] } url d hInv1
  refine ⟨hpe.1, Nat.lt_of_le_of_lt hpe.2 ?_⟩
  unfold msr
  rw [hq]
  simp only [List.length_cons]
  omega

/-- The queue length never exceeds the measure. -/
theorem queue_len_le_msr (cfg : Config) (web : Web) (st : CrawlState) :
    st.queue.length ≤ msr cfg web st := by
  unfold msr
  omega

/-- The crawl loop preserves the invariant, and drains the queue
completely when given at least `msr` much fuel. -/
theorem crawlLoop_inv (cfg : Config) (web : Web) :
    ∀ (fuel : Nat) (st : CrawlState), CrawlInv cfg web st →
    CrawlInv cfg web (crawlLoop cfg web fuel st) ∧
    (msr cfg web st ≤ fuel → (crawlLoop cfg web fuel st).queue = []) := by
  intro fuel
  induction fuel with
  | zero =>
      intro st hInv
      refine ⟨hInv, ?_⟩
      intro hm
      have hq := queue_len_le_msr cfg web st
      have hz : st.queue.length = 0 := by omega
      unfold crawlLoop
      exact List.length_eq_zero.mp hz
  | succ f ih =>
      intro st hInv
      unfold crawlLoop
      cases hq : st.queue with
      | nil => exact ⟨hInv, fun _ => hq⟩
      | cons e rest =>
          obtain ⟨url, d⟩ := e
          have hstep := crawlStep_inv cfg web st url d rest hq hInv
          have h2 := ih (crawlStep cfg web st) hstep.1
          refine ⟨h2.1, ?_⟩
          intro hm
          exact h2.2 (by omega)

/-- The state at the top of `extract_urls` satisfies the master
invariant. -/
theorem initState_inv (cfg : Config) (web : Web) (ledger0 fs0 : List String) :
    CrawlInv cfg web (initState cfg ledger0 fs0) := by
  refine ⟨rfl, by simp [initState], ?_, by simp [initState], ?_, by simp [initState]⟩
  · intro u
    simp [initState]
  · intro u hu
    simp only [initState] at hu
    rw [List.mem_singleton] at hu
    subst hu
    exact List.mem_cons_self _ _

/-- Claim C2: across any run of `extract_urls`, every URL is enqueued
at most once (the enqueue trace has pairwise-distinct URLs), the
visited set is at every moment exactly the set of URLs enqueued so far
(membership is granted at the instant of enqueue, the seed included),
and the enqueue trace is the processed (dequeued) trace followed by
the still-pending queue — so every processed URL was enqueued, and
enqueued strictly before being processed. -/
theorem enqueue_at_most_once (cfg : Config) (web : Web)
    (ledger0 fs0 : List String) (fuel : Nat) :
    ((extract_urls cfg web ledger0 fs0 fuel).enqTrace.map Prod.fst).Nodup ∧
    (∀ u, u ∈ (extract_urls cfg web ledger0 fs0 fuel).visited ↔
      u ∈ (extract_urls cfg web ledger0 fs0 fuel).enqTrace.map Prod.fst) ∧
    (extract_urls cfg web ledger0 fs0 fuel).enqTrace =
      (extract_urls cfg web ledger0 fs0 fuel).deqTrace ++
      (extract_urls cfg web ledger0 fs0 fuel).queue := by
  have h := (crawlLoop_inv cfg web fuel (initState cfg ledger0 fs0)
    (initState_inv cfg web ledger0 fs0)).1
  obtain ⟨i1, i2, i3, _, _, _⟩ := h
  exact ⟨i2, i3, i1⟩

/-- A crawler with max depth 0 for the depth-bound scenario. -/
def cfgC3 : Config :=
  { startUrl := "http://d.test/", maxDepth := 0, excludedPaths := [],
    downloadExtensions := defaultDownloadExtensions,
    contentTypeMapping := defaultContentTypeMapping,
    languagePattern := none, baseDir := "o", hash := fun _ => "h" }

/-- A one-page site whose seed page links to one internal page. -/
def webC3 : Web :=
  { pages := [("http://d.test/", some ["http://d.test/a"])],
    ct := fun _ => none, dl := fun _ => .err, html := fun _ => none }

/-- Claim C3: no frontier entry is ever fetched at a depth beyond the
configured bound — and depth is only checked after dequeue: with max
depth 0, the link found on the depth-0 seed page is still enqueued at
depth 1 (there is no enqueue-time depth check) and is discarded after
dequeue without being fetched. -/
theorem depth_checked_after_dequeue :
    (∀ (cfg : Config) (web : Web) (ledger0 fs0 : List String) (fuel : Nat),
      ∀ pr ∈ (extract_urls cfg web ledger0 fs0 fuel).fetchTrace,
        pr.2 ≤ cfg.maxDepth) ∧
    (cfgC3.maxDepth = 0 ∧
     ("http://d.test/a", 1) ∈ (extract_urls cfgC3 webC3 [] [] 4).enqTrace ∧
     ("http://d.test/a", 1) ∉ (extract_urls cfgC3 webC3 [] [] 4).fetchTrace) := by
  constructor
  · intro cfg web ledger0 fs0 fuel pr hpr
    have h := (crawlLoop_inv cfg web fuel (initState cfg ledger0 fs0)
      (initState_inv cfg web ledger0 fs0)).1
    exact h.2.2.2.2.2 pr hpr
  · exact ⟨by decide, by decide, by decide⟩

/-- Witness for C3: in the concrete run the seed itself is fetched, at
a depth within the bound. -/
theorem depth_checked_after_dequeue_witness :
    (("http://d.test/", 0) ∈ (extract_urls cfgC3 webC3 [] [] 4).fetchTrace) ∧
    ("http://d.test/", 0).2 ≤ cfgC3.maxDepth :=
  ⟨by decide,
    depth_checked_after_dequeue.1 cfgC3 webC3 [] [] 4 ("http://d.test/", 0) (by decide)⟩

/-- One phase-2 download step never touches the phase-2 page log. -/
theorem dlStep_pagesDone (cfg : Config) (web : Web) (purl : String)
    (st : CrawlState) (href : String) :
    (resState (dlStep cfg web purl st href)).pagesDone = st.pagesDone := by
  unfold dlStep
  by_cases h1 : is_downloadable_file cfg (urljoin purl href) = true ∧
      urljoin purl href ∉ st.ledger
  · rw [if_pos (by simpa using h1)]
    cases hct : web.ct (urljoin purl href) with
    | none => simp [resState]
    | some ctype =>
        simp only [hct]
        cases hg : get_file_type_and_extension cfg (urljoin purl href) ctype with
        | none => simp [resState]
        | some pr =>
            obtain ⟨ftd, ext0⟩ := pr
            simp only [hg]
            by_cases hfs : pathJoin cfg.baseDir ftd
                (sanitize_filename cfg (urljoin purl href) ftd
                  ((ctLookup cfg ftd (strLower ctype)).getD "") none) ∈ st.fs
            · rw [if_pos (by simpa using hfs)]
              rfl
            · rw [if_neg (by simpa using hfs)]
              show (resState (Except.ok (download_file cfg web st (urljoin purl href) ftd).1)).pagesDone =
                st.pagesDone
              exact (download_file_frontier cfg web st (urljoin purl href) ftd).2.2.2.2.2
  · rw [if_neg (by simpa using h1)]
    rfl

/-- The phase-2 download loop never touches the phase-2 page log. -/
theorem dlFold_pagesDone (cfg : Config) (web : Web) (purl : String) :
    ∀ (hrefs : List String) (st : CrawlState),
    (dlFold cfg web purl st hrefs).pagesDone = st.pagesDone := by
  intro hrefs
  induction hrefs with
  | nil => intro st; rfl
  | cons h hs ih =>
      intro st
      have hstep := dlStep_pagesDone cfg web purl st h
      unfold dlFold
      cases hres : dlStep cfg web purl st h with
      | ok st2 =>
          rw [hres] at hstep
          rw [ih st2]
          exact hstep
      | error st2 =>
          rw [hres] at hstep
          exact hstep

/-- `extract_content` never touches the phase-2 page log. -/
theorem extract_content_pagesDone (cfg : Config) (web : Web)
    (conv : Html → String) (st : CrawlState) (url : String) :
    (extract_content cfg web conv st url).pagesDone = st.pagesDone := by
  unfold extract_content
  by_cases h1 : is_downloadable_file cfg url = true
  · simp [h1]
  · rw [Bool.not_eq_true] at h1
    simp only [h1, Bool.false_eq_true, if_false]
    cases hh : web.html url with
    | none => rfl
    | some doc =>
        simp only [hh]
        cases hsel : selectMain (removeTagsList boilerplateTags doc) with
        | none => rfl
        | some mc =>
            simp only [hsel]
            by_cases hc : clean_text (String.intercalate "\n\n"
              ((match findList (fun n => n.tagOf = some "h1")
                  (removeTagsList boilerplateTags doc) with
                | some t => ["# " ++ stripStr (textOf t)]
                | none => []) ++ ["**Source:** " ++ url, conv (convertLinksAbs url mc)])) ≠ ""
            · rw [if_pos hc]
              rw [dlFold_pagesDone]
            · rw [if_neg hc]
              rw [dlFold_pagesDone]

/-- The phase-2 driver logs exactly the pages handed to
`extract_content`, whatever each extraction does or fails to do. -/
theorem phase2_foldl_pagesDone (cfg : Config) (web : Web) (conv : Html → String) :
    ∀ (l : List String) (st : CrawlState),
    (l.foldl (fun s u => extract_content cfg web conv
        { s with pagesDone := s.pagesDone ++ [u] } u) st).pagesDone =
      st.pagesDone ++ l := by
  intro l
  induction l with
  | nil => intro st; simp
  | cons u us ih =>
      intro st
      rw [List.foldl_cons, ih]
      rw [extract_content_pagesDone]
      simp

/-- A crawler and site for the error-tolerance scenario: the seed page
links to a page whose fetch fails and to a file whose probe raises. -/
def cfgC7 : Config :=
  { startUrl := "http://c.test/", maxDepth := 2, excludedPaths := [],
    downloadExtensions := defaultDownloadExtensions,
    contentTypeMapping := defaultContentTypeMapping,
    languagePattern := none, baseDir := "o", hash := fun _ => "h" }

/-- The failing site for C7: one good page, one fetch-failing page,
one probe-raising downloadable. -/
def webC7 : Web :=
  { pages := [("http://c.test/", some ["http://c.test/x", "http://c.test/f.pdf"])],
    ct := fun _ => none, dl := fun _ => .err, html := fun _ => none }

/-- Claim C7 (amended): per-URL errors are caught where they occur and
the traversal continues — no single bad URL aborts either phase.
Phase 1: for every site — including ones whose fetches, probes and
downloads fail arbitrarily — enough fuel drains the queue completely
and every enqueued entry is dequeued and processed, in order.
Phase 2: every visited non-file page is handed to `extract_content`,
whatever the outcome of each page's processing.  (The claim's further
assertion that such errors are *counted* is false of the program: no
error counter exists — see the counterexample below.) -/
theorem per_url_errors_do_not_abort :
    (∀ (cfg : Config) (web : Web) (ledger0 fs0 : List String) (fuel : Nat),
      msr cfg web (initState cfg ledger0 fs0) ≤ fuel →
      (extract_urls cfg web ledger0 fs0 fuel).queue = [] ∧
      (extract_urls cfg web ledger0 fs0 fuel).deqTrace =
        (extract_urls cfg web ledger0 fs0 fuel).enqTrace) ∧
    (∀ (cfg : Config) (web : Web) (conv : Html → String) (st : CrawlState),
      (phase2 cfg web conv st).pagesDone =
        st.pagesDone ++ (st.visited.filter fun u => !(is_downloadable_file cfg u))) := by
  constructor
  · intro cfg web ledger0 fs0 fuel hfuel
    have h := crawlLoop_inv cfg web fuel (initState cfg ledger0 fs0)
      (initState_inv cfg web ledger0 fs0)
    have hq := h.2 hfuel
    refine ⟨hq, ?_⟩
    have h1 := h.1.1
    rw [hq, List.append_nil] at h1
    exact h1.symm
  · intro cfg web conv st
    unfold phase2
    exact phase2_foldl_pagesDone cfg web conv _ st

/-- Witness for C7 on the failing site: the measure bound holds with
fuel 5 and the run drains the queue, processing both the failing page
and the failing download without aborting. -/
theorem per_url_errors_do_not_abort_witness :
    (msr cfgC7 webC7 (initState cfgC7 [] []) ≤ 5) ∧
    ((extract_urls cfgC7 webC7 [] [] 5).queue = [] ∧
     (extract_urls cfgC7 webC7 [] [] 5).deqTrace =
       (extract_urls cfgC7 webC7 [] [] 5).enqTrace) :=
  ⟨by decide, per_url_errors_do_not_abort.1 cfgC7 webC7 [] [] 5 (by decide)⟩

/-- Counterexample to claim C7 as stated: the crawl of the failing
site meets a per-URL error — the page `x` is dequeued, passes the
depth and exclusion checks, and its fetch fails — yet the statistics
table is empty at the end of the run: the program logs per-URL errors
but counts none of them (`stats` is only ever bumped at
`pages_processed` and the per-category `_downloaded` keys). -/
theorem errors_not_counted :
    ("http://c.test/x", 1) ∈ (extract_urls cfgC7 webC7 [] [] 5).fetchTrace ∧
    pageLinks webC7 "http://c.test/x" = none ∧
    webC7.ct "http://c.test/f.pdf" = none ∧
    (extract_urls cfgC7 webC7 [] [] 5).stats = [] := by
  decide

/-- Claim C6: loading with no persisted file yields the empty ledger
rather than an error; at shutdown the persisted file is replaced by
exactly the sorted full in-memory set — whatever was stored before,
and also when the crawl body ends in a crawl-fatal error, in which
case the state at the error is the one persisted (the `finally` arm). -/
theorem ledger_saved_at_shutdown :
    (load_downloaded_files none = []) ∧
    (∀ (cfg : Config) (body : CrawlState → Except CrawlState CrawlState)
        (store : Option (List String)) (fs0 : List String),
      ∃ l, (runCrawl cfg body store fs0).2 = some l ∧
        List.Sorted (fun a b : String => a ≤ b) l ∧
        ∀ u, (u ∈ l ↔ u ∈ (runCrawl cfg body store fs0).1.ledger)) ∧
    (∀ (cfg : Config) (s0 : CrawlState) (store : Option (List String))
        (fs0 : List String),
      (runCrawl cfg (fun _ => .error s0) store fs0).1 = s0) := by
  refine ⟨rfl, ?_, ?_⟩
  · intro cfg body store fs0
    refine ⟨List.insertionSort (fun a b : String => a ≤ b)
      (runCrawl cfg body store fs0).1.ledger.dedup, ?_, ?_, ?_⟩
    · show save_downloaded_files (runCrawl cfg body store fs0).1.ledger = _
      rfl
    · exact List.sorted_insertionSort _ _
    · intro u
      rw [(List.perm_insertionSort (fun a b : String => a ≤ b) _).mem_iff]
      exact List.mem_dedup
  · intro cfg s0 store fs0
    rfl

/-- `download_file` only ever grows the ledger. -/
theorem download_file_ledger_mono (cfg : Config) (web : Web) (st : CrawlState)
    (url ft x : String) (hx : x ∈ st.ledger) :
    x ∈ (download_file cfg web st url ft).1.ledger := by
  unfold download_file
  cases hct : web.ct url with
  | none => exact hx
  | some ctype =>
      simp only [hct]
      cases hg : get_file_type_and_extension cfg url ctype with
      | none => exact hx
      | some pr =>
          obtain ⟨ftd, ext⟩ := pr
          simp only [hg]
          by_cases hfs : savePathFor cfg url ftd ext ∈ st.fs
          · rw [if_pos (by simpa using hfs)]
            exact hx
          · rw [if_neg (by simpa using hfs)]
            cases hdl : web.dl url with
            | err => exact hx
            | incomplete => exact hx
            | ok =>
                show x ∈ insertSet url st.ledger
                unfold insertSet
                by_cases hc : st.ledger.contains url
                · rw [if_pos hc]; exact hx
                · rw [if_neg hc]; exact List.mem_cons_of_mem _ hx

/-- `download_file` fetches at most the bytes of its own URL: the
download trace is unchanged or extended by exactly that URL. -/
theorem download_file_dlTrace (cfg : Config) (web : Web) (st : CrawlState)
    (url ft : String) :
    (download_file cfg web st url ft).1.dlTrace = st.dlTrace ∨
    (download_file cfg web st url ft).1.dlTrace = st.dlTrace ++ [url] := by
  unfold download_file
  cases hct : web.ct url with
  | none => left; rfl
  | some ctype =>
      simp only [hct]
      cases hg : get_file_type_and_extension cfg url ctype with
      | none => left; rfl
      | some pr =>
          obtain ⟨ftd, ext⟩ := pr
          simp only [hg]
          by_cases hfs : savePathFor cfg url ftd ext ∈ st.fs
          · rw [if_pos (by simpa using hfs)]
            left; rfl
          · rw [if_neg (by simpa using hfs)]
            cases hdl : web.dl url with
            | err => right; rfl
            | incomplete => right; rfl
            | ok => right; rfl

/-- One phase-2 download step never fetches a URL already in the
ledger: the ledger keeps containing `u`, and any new trace entry is a
URL that was outside the ledger, hence not `u`. -/
theorem dlStep_ledger_guard (cfg : Config) (web : Web) (purl : String)
    (st : CrawlState) (href u : String) (hu : u ∈ st.ledger) :
    u ∈ (resState (dlStep cfg web purl st href)).ledger ∧
    ∀ v ∈ (resState (dlStep cfg web purl st href)).dlTrace,
      v ∈ st.dlTrace ∨ v ≠ u := by
  unfold dlStep
  by_cases h1 : is_downloadable_file cfg (urljoin purl href) = true ∧
      urljoin purl href ∉ st.ledger
  · rw [if_pos (by simpa using h1)]
    have hne : urljoin purl href ≠ u := fun he => h1.2 (he ▸ hu)
    cases hct : web.ct (urljoin purl href) with
    | none => exact ⟨hu, fun v hv => Or.inl hv⟩
    | some ctype =>
        simp only [hct]
        cases hg : get_file_type_and_extension cfg (urljoin purl href) ctype with
        | none => exact ⟨hu, fun v hv => Or.inl hv⟩
        | some pr =>
            obtain ⟨ftd, ext0⟩ := pr
            simp only [hg]
            by_cases hfs : pathJoin cfg.baseDir ftd
                (sanitize_filename cfg (urljoin purl href) ftd
                  ((ctLookup cfg ftd (strLower ctype)).getD "") none) ∈ st.fs
            · rw [if_pos (by simpa using hfs)]
              exact ⟨hu, fun v hv => Or.inl hv⟩
            · rw [if_neg (by simpa using hfs)]
              refine ⟨download_file_ledger_mono cfg web st (urljoin purl href) ftd u hu, ?_⟩
              intro v hv
              rcases download_file_dlTrace cfg web st (urljoin purl href) ftd with hT | hT
              · rw [show resState (Except.ok (download_file cfg web st (urljoin purl href) ftd).1) =
                  (download_file cfg web st (urljoin purl href) ftd).1 from rfl] at hv
                rw [hT] at hv
                exact Or.inl hv
              · rw [show resState (Except.ok (download_file cfg web st (urljoin purl href) ftd).1) =
                  (download_file cfg web st (urljoin purl href) ftd).1 from rfl] at hv
                rw [hT] at hv
                rcases List.mem_append.mp hv with hv2 | hv2
                · exact Or.inl hv2
                · right
                  rw [List.mem_singleton] at hv2
                  subst hv2
                  exact hne
  · rw [if_neg (by simpa using h1)]
    exact ⟨hu, fun v hv => Or.inl hv⟩

/-- The phase-2 download loop never fetches a URL already in the
ledger when the loop starts. -/
theorem dlFold_ledger_guard (cfg : Config) (web : Web) (purl u : String) :
    ∀ (hrefs : List String) (st : CrawlState), u ∈ st.ledger →
    u ∈ (dlFold cfg web purl st hrefs).ledger ∧
    ∀ v ∈ (dlFold cfg web purl st hrefs).dlTrace, v ∈ st.dlTrace ∨ v ≠ u := by
  intro hrefs
  induction hrefs with
  | nil => intro st hu; exact ⟨hu, fun v hv => Or.inl hv⟩
  | cons h hs ih =>
      intro st hu
      have hstep := dlStep_ledger_guard cfg web purl st h u hu
      unfold dlFold
      cases hres : dlStep cfg web purl st h with
      | ok st2 =>
          rw [hres] at hstep
          have h2 := ih st2 hstep.1
          refine ⟨h2.1, ?_⟩
          intro v hv
          rcases h2.2 v hv with hv2 | hv2
          · exact hstep.2 v hv2
          · exact Or.inr hv2
      | error st2 =>
          rw [hres] at hstep
          exact hstep

/-- Claim C4 (second half, phase-2 path): a URL in the ledger when
`extract_content` starts is never byte-fetched by it. -/
theorem extract_content_ledger_guard :
    ∀ (cfg : Config) (web : Web) (conv : Html → String) (st : CrawlState)
      (url u : String), u ∈ st.ledger →
    ∀ v, v ∈ (extract_content cfg web conv st url).dlTrace →
      v ∈ st.dlTrace ∨ v ≠ u := by
  intro cfg web conv st url u hu v hv
  unfold extract_content at hv
  by_cases h1 : is_downloadable_file cfg url = true
  · simp only [h1, if_true] at hv
    exact Or.inl hv
  · rw [Bool.not_eq_true] at h1
    simp only [h1, Bool.false_eq_true, if_false] at hv
    cases hh : web.html url with
    | none => rw [hh] at hv; exact Or.inl hv
    | some doc =>
        simp only [hh] at hv
        cases hsel : selectMain (removeTagsList boilerplateTags doc) with
        | none => simp only [hsel] at hv; exact Or.inl hv
        | some mc =>
            simp only [hsel] at hv
            by_cases hc : clean_text (String.intercalate "\n\n"
              ((match findList (fun n => n.tagOf = some "h1")
                  (removeTagsList boilerplateTags doc) with
                | some t => ["# " ++ stripStr (textOf t)]
                | none => []) ++ ["**Source:** " ++ url, conv (convertLinksAbs url mc)])) ≠ ""
            · rw [if_pos hc] at hv
              have haux : ∀ (st3 : CrawlState) (w : String),
                  w ∈ (dlFold cfg web url st3 (downloadRefs mc)).dlTrace →
                  st3.ledger = st.ledger → st3.dlTrace = st.dlTrace →
                  w ∈ st.dlTrace ∨ w ≠ u := by
                intro st3 w hw hl ht
                have h5 := (dlFold_ledger_guard cfg web url u (downloadRefs mc)
                  st3 (by rw [hl]; exact hu)).2 w hw
                rwa [ht] at h5
              exact haux _ v hv rfl rfl
            · rw [if_neg hc] at hv
              have haux : ∀ (st3 : CrawlState) (w : String),
                  w ∈ (dlFold cfg web url st3 (downloadRefs mc)).dlTrace →
                  st3.ledger = st.ledger → st3.dlTrace = st.dlTrace →
                  w ∈ st.dlTrace ∨ w ≠ u := by
                intro st3 w hw hl ht
                have h5 := (dlFold_ledger_guard cfg web url u (downloadRefs mc)
                  st3 (by rw [hl]; exact hu)).2 w hw
                rwa [ht] at h5
              exact haux _ v hv rfl rfl

/-- Claim C4 (first half, which does hold): the destination-existence
check guards every byte fetch — a `download_file` call whose resolved
destination already exists on the file system returns immediately with
the state untouched and no bytes fetched. -/
theorem existing_destination_skips_download (cfg : Config) (web : Web)
    (st : CrawlState) (url ft ctype ftd ext : String)
    (hct : web.ct url = some ctype)
    (hg : get_file_type_and_extension cfg url ctype = some (ftd, ext))
    (hfs : savePathFor cfg url ftd ext ∈ st.fs) :
    download_file cfg web st url ft = (st, false) ∧
    (∀ (cfg2 : Config) (web2 : Web) (conv : Html → String) (st2 : CrawlState)
       (url2 u : String), u ∈ st2.ledger →
      ∀ v, v ∈ (extract_content cfg2 web2 conv st2 url2).dlTrace →
        v ∈ st2.dlTrace ∨ v ≠ u) := by
  constructor
  · unfold download_file
    simp only [hct, hg]
    rw [if_pos (by simpa using hfs)]
  · exact extract_content_ledger_guard

/-- A crawler instance for the download-idempotence scenarios. -/
def cfgC4 : Config :=
  { startUrl := "http://c4.test/", maxDepth := 1, excludedPaths := [],
    downloadExtensions := defaultDownloadExtensions,
    contentTypeMapping := defaultContentTypeMapping,
    languagePattern := none, baseDir := "o", hash := fun _ => "h" }

/-- A site whose seed page links to one PDF that downloads cleanly. -/
def webC4 : Web :=
  { pages := [("http://c4.test/", some ["http://c4.test/f.pdf"])],
    ct := fun _ => some "application/pdf",
    dl := fun _ => .ok,
    html := fun _ => none }

/-- Counterexample to claim C4 as stated: the PDF URL is in the
download ledger from the start and its destination file is absent, yet
the phase-1 frontier walk still fetches its bytes — the ledger is not
consulted on the `extract_urls` paths before downloading. -/
theorem ledger_not_checked_in_phase1 :
    "http://c4.test/f.pdf" ∈
      (extract_urls cfgC4 webC4 ["http://c4.test/f.pdf"] [] 4).dlTrace := by
  decide

/-- Witness for the amended C4 at a concrete instance: with the
destination file present, `download_file` skips the fetch and returns
the state unchanged. -/
theorem existing_destination_skips_download_witness :
    (webC4.ct "http://c4.test/f.pdf" = some "application/pdf") ∧
    (get_file_type_and_extension cfgC4 "http://c4.test/f.pdf" "application/pdf" =
      some ("PDF", ".pdf")) ∧
    (savePathFor cfgC4 "http://c4.test/f.pdf" "PDF" ".pdf" ∈
      (initState cfgC4 [] ["o/PDF/f_h.pdf"]).fs) ∧
    (download_file cfgC4 webC4 (initState cfgC4 [] ["o/PDF/f_h.pdf"])
        "http://c4.test/f.pdf" "PDF" = (initState cfgC4 [] ["o/PDF/f_h.pdf"], false) ∧
      ∀ (cfg2 : Config) (web2 : Web) (conv : Html → String) (st2 : CrawlState)
        (url2 u : String), u ∈ st2.ledger →
        ∀ v, v ∈ (extract_content cfg2 web2 conv st2 url2).dlTrace →
          v ∈ st2.dlTrace ∨ v ≠ u) :=
  ⟨by decide, by decide, by decide,
    existing_destination_skips_download cfgC4 webC4 (initState cfgC4 [] ["o/PDF/f_h.pdf"])
      "http://c4.test/f.pdf" "PDF" "application/pdf" "PDF" ".pdf"
      (by decide) (by decide) (by decide)⟩

/-- A URL is already in `insertSet`'s result. -/
theorem mem_insertSet (u : String) (l : List String) : u ∈ insertSet u l := by
  unfold insertSet
  by_cases hc : l.contains u
  · rw [if_pos hc]
    simpa using hc
  · rw [if_neg hc]
    exact List.mem_cons_self _ _

/-- Claim C5 (amended): `download_file` itself records a URL in the
ledger exactly on success — a failing attempt leaves the ledger
untouched and a successful one records its URL; but the phase-1
frontier paths additionally insert the URL unconditionally right after
every download attempt, even a failing one (lines 519 and 563). -/
theorem ledger_records_download :
    (∀ (cfg : Config) (web : Web) (st : CrawlState) (url ft : String),
      (download_file cfg web st url ft).2 = false →
      (download_file cfg web st url ft).1.ledger = st.ledger) ∧
    (∀ (cfg : Config) (web : Web) (st : CrawlState) (url ft : String),
      (download_file cfg web st url ft).2 = true →
      url ∈ (download_file cfg web st url ft).1.ledger) ∧
    (∀ (cfg : Config) (web : Web) (cur : String) (d : Nat) (st : CrawlState)
        (href ctype ftd ext0 : String),
      is_downloadable_file cfg (urljoin cur href) = true →
      web.ct (urljoin cur href) = some ctype →
      get_file_type_and_extension cfg (urljoin cur href) ctype = some (ftd, ext0) →
      pathJoin cfg.baseDir ftd (sanitize_filename cfg (urljoin cur href) ftd
        ((ctLookup cfg ftd (strLower ctype)).getD "") none) ∉ st.fs →
      urljoin cur href ∈ (resState (linkStep cfg web cur d st href)).ledger) := by
  refine ⟨?_, ?_, ?_⟩
  · intro cfg web st url ft hres
    unfold download_file at hres ⊢
    cases hct : web.ct url with
    | none => rfl
    | some ctype =>
        simp only [hct] at hres ⊢
        cases hg : get_file_type_and_extension cfg url ctype with
        | none => rfl
        | some pr =>
            obtain ⟨ftd, ext⟩ := pr
            simp only [hg] at hres ⊢
            by_cases hfs : savePathFor cfg url ftd ext ∈ st.fs
            · rw [if_pos (by simpa using hfs)]
            · rw [if_neg (by simpa using hfs)] at hres ⊢
              cases hdl : web.dl url with
              | err => rfl
              | incomplete => rfl
              | ok => rw [hdl] at hres; simp at hres
  · intro cfg web st url ft hres
    unfold download_file at hres ⊢
    cases hct : web.ct url with
    | none => rw [hct] at hres; simp at hres
    | some ctype =>
        simp only [hct] at hres ⊢
        cases hg : get_file_type_and_extension cfg url ctype with
        | none => simp only [hg] at hres; simp at hres
        | some pr =>
            obtain ⟨ftd, ext⟩ := pr
            simp only [hg] at hres ⊢
            by_cases hfs : savePathFor cfg url ftd ext ∈ st.fs
            · rw [if_pos (by simpa using hfs)] at hres
              simp at hres
            · rw [if_neg (by simpa using hfs)] at hres ⊢
              cases hdl : web.dl url with
              | err => rw [hdl] at hres; simp at hres
              | incomplete => rw [hdl] at hres; simp at hres
              | ok => exact mem_insertSet url st.ledger
  · intro cfg web cur d st href ctype ftd ext0 h1 hct hg hfs
    unfold linkStep
    simp only [h1, if_true, hct, hg]
    rw [if_neg (by simpa using hfs)]
    exact mem_insertSet _ _

/-- A site whose single PDF download always ends with a byte-count
mismatch. -/
def webC5 : Web :=
  { pages := [("http://c4.test/", some ["http://c4.test/f.pdf"])],
    ct := fun _ => some "application/pdf",
    dl := fun _ => .incomplete,
    html := fun _ => none }

/-- Counterexample to claim C5 as stated: the PDF download fails with
an incomplete byte count (no category counter bumped — the download
did not succeed), and the URL is nonetheless in the ledger at the end
of the phase-1 walk, inserted by the unconditional `add` after the
attempt. -/
theorem failed_download_added_to_ledger :
    "http://c4.test/f.pdf" ∈ (extract_urls cfgC4 webC5 [] [] 4).ledger ∧
    getStat (extract_urls cfgC4 webC5 [] [] 4).stats "PDF_downloaded" = 0 := by
  decide

/-- Witness for the amended C5 at a concrete instance: the incomplete
download returns failure and `download_file` leaves the ledger alone. -/
theorem ledger_records_download_witness :
    ((download_file cfgC4 webC5 (initState cfgC4 [] [])
        "http://c4.test/f.pdf" "PDF").2 = false) ∧
    ((download_file cfgC4 webC5 (initState cfgC4 [] [])
        "http://c4.test/f.pdf" "PDF").1.ledger = (initState cfgC4 [] []).ledger) :=
  ⟨by decide,
    ledger_records_download.1 cfgC4 webC5 (initState cfgC4 [] [])
      "http://c4.test/f.pdf" "PDF" (by decide)⟩

/-- Claim C8 (amended): a non-downloadable reference is enqueued at
depth+1 and marked visited at that instant exactly when `enqCond`
holds, and `enqCond` is the conjunction: the seed's network location
occurs as a substring of the link's network location (not: same
registrable domain), the locale filter passes, the link is not yet
visited, it does not end in a null-navigation fragment, and no
excluded-path substring occurs in it. -/
theorem enqueue_guard_characterization (cfg : Config) (web : Web) (cur : String)
    (d : Nat) (st : CrawlState) (href : String)
    (h1 : is_downloadable_file cfg (urljoin cur href) = false) :
    ((enqCond cfg st (urljoin cur href) = true ∧
      linkStep cfg web cur d st href =
        .ok { st with queue := st.queue ++ [(urljoin cur href, d + 1)],
                      visited := urljoin cur href :: st.visited,
                      enqTrace := st.enqTrace ++ [(urljoin cur href, d + 1)] }) ∨
     (enqCond cfg st (urljoin cur href) = false ∧
      linkStep cfg web cur d st href = .ok st)) ∧
    (enqCond cfg st (urljoin cur href) = true ↔
      (strContains cfg.domain (parseUrl (urljoin cur href)).netloc = true ∧
       is_same_language cfg (urljoin cur href) = true ∧
       urljoin cur href ∉ st.visited ∧
       strEndsWith (urljoin cur href) "#" = false ∧
       strEndsWith (urljoin cur href) "javascript:void(0)" = false ∧
       strEndsWith (urljoin cur href) "javascript:;" = false ∧
       should_exclude cfg (urljoin cur href) = false)) := by
  constructor
  · cases hcond : enqCond cfg st (urljoin cur href) with
    | true =>
        left
        refine ⟨rfl, ?_⟩
        unfold linkStep
        simp [h1, hcond]
    | false =>
        right
        refine ⟨rfl, ?_⟩
        unfold linkStep
        simp [h1, hcond]
  · unfold enqCond
    simp only [Bool.and_eq_true, Bool.not_eq_true', Bool.or_eq_false_iff]
    constructor
    · rintro ⟨⟨⟨⟨hc1, hc2⟩, hc3⟩, ⟨he1, he2⟩, he3⟩, hc5⟩
      exact ⟨hc1, hc2, by simpa using hc3, he1, he2, he3, hc5⟩
    · rintro ⟨hc1, hc2, hc3, he1, he2, he3, hc5⟩
      exact ⟨⟨⟨⟨hc1, hc2⟩, by simpa using hc3⟩, ⟨he1, he2⟩, he3⟩, hc5⟩

/-- A crawler seeded on host `a.t` for the domain-check scenario. -/
def cfgC8 : Config :=
  { startUrl := "http://a.t/", maxDepth := 1, excludedPaths := [],
    downloadExtensions := defaultDownloadExtensions,
    contentTypeMapping := defaultContentTypeMapping,
    languagePattern := none, baseDir := "o", hash := fun _ => "h" }

/-- A site whose seed page links to a host that merely contains the
seed's host as a substring. -/
def webC8 : Web :=
  { pages := [("http://a.t/", some ["http://a.t.evil/x"])],
    ct := fun _ => some "", dl := fun _ => .err, html := fun _ => none }

/-- Counterexample to claim C8 as stated: `a.t.evil` is a different
registrable domain than the seed's `a.t`, yet the link is enqueued and
visited, because the code tests `self.domain in parsed_url.netloc` —
substring containment, not domain equality. -/
theorem foreign_domain_enqueued :
    "http://a.t.evil/x" ∈ (extract_urls cfgC8 webC8 [] [] 4).visited ∧
    (parseUrl "http://a.t.evil/x").netloc ≠ (parseUrl cfgC8.startUrl).netloc := by
  decide

/-- Witness for the amended C8 at the scenario instance: the evil link
satisfies `enqCond` against the fresh state and is enqueued by
`linkStep`. -/
theorem enqueue_guard_characterization_witness :
    (is_downloadable_file cfgC8 (urljoin "http://a.t/" "http://a.t.evil/x") = false) ∧
    (((enqCond cfgC8 (initState cfgC8 [] []) (urljoin "http://a.t/" "http://a.t.evil/x") = true ∧
      linkStep cfgC8 webC8 "http://a.t/" 0 (initState cfgC8 [] []) "http://a.t.evil/x" =
        .ok { initState cfgC8 [] [] with
              queue := (initState cfgC8 [] []).queue ++
                [(urljoin "http://a.t/" "http://a.t.evil/x", 0 + 1)],
              visited := urljoin "http://a.t/" "http://a.t.evil/x" ::
                (initState cfgC8 [] []).visited,
              enqTrace := (initState cfgC8 [] []).enqTrace ++
                [(urljoin "http://a.t/" "http://a.t.evil/x", 0 + 1)] }) ∨
     (enqCond cfgC8 (initState cfgC8 [] []) (urljoin "http://a.t/" "http://a.t.evil/x") = false ∧
      linkStep cfgC8 webC8 "http://a.t/" 0 (initState cfgC8 [] []) "http://a.t.evil/x" =
        .ok (initState cfgC8 [] []))) ∧
    (enqCond cfgC8 (initState cfgC8 [] []) (urljoin "http://a.t/" "http://a.t.evil/x") = true ↔
      (strContains cfgC8.domain
        (parseUrl (urljoin "http://a.t/" "http://a.t.evil/x")).netloc = true ∧
       is_same_language cfgC8 (urljoin "http://a.t/" "http://a.t.evil/x") = true ∧
       urljoin "http://a.t/" "http://a.t.evil/x" ∉ (initState cfgC8 [] []).visited ∧
       strEndsWith (urljoin "http://a.t/" "http://a.t.evil/x") "#" = false ∧
       strEndsWith (urljoin "http://a.t/" "http://a.t.evil/x") "javascript:void(0)" = false ∧
       strEndsWith (urljoin "http://a.t/" "http://a.t.evil/x") "javascript:;" = false ∧
       should_exclude cfgC8 (urljoin "http://a.t/" "http://a.t.evil/x") = false))) :=
  ⟨by decide,
    enqueue_guard_characterization cfgC8 webC8 "http://a.t/" 0 (initState cfgC8 [] [])
      "http://a.t.evil/x" (by decide)⟩

/-- Claim C9 (amended): after boilerplate removal, the main-content
region is chosen with the fixed priority `<main>`, else `<article>`,
else a `<div>` carrying class `content`, else a `<div>` with id
`content` (elements other than `div` carrying the class or id are not
considered); and when no candidate exists the page's extraction leaves
the file store and the statistics untouched, appending only the
warning. -/
theorem main_content_selection :
    (∀ (doc : List Html) (m : Html),
      findList (fun n => n.tagOf = some "main") doc = some m →
      selectMain doc = some m) ∧
    (∀ (doc : List Html) (a : Html),
      findList (fun n => n.tagOf = some "main") doc = none →
      findList (fun n => n.tagOf = some "article") doc = some a →
      selectMain doc = some a) ∧
    (∀ (doc : List Html) (dv : Html),
      findList (fun n => n.tagOf = some "main") doc = none →
      findList (fun n => n.tagOf = some "article") doc = none →
      findList (fun n => n.tagOf = some "div" && n.hasClass "content") doc = some dv →
      selectMain doc = some dv) ∧
    (∀ (doc : List Html) (dv : Html),
      findList (fun n => n.tagOf = some "main") doc = none →
      findList (fun n => n.tagOf = some "article") doc = none →
      findList (fun n => n.tagOf = some "div" && n.hasClass "content") doc = none →
      findList (fun n => n.tagOf = some "div" && n.hasId "content") doc = some dv →
      selectMain doc = some dv) ∧
    (∀ (cfg : Config) (web : Web) (conv : Html → String) (st : CrawlState)
        (url : String) (doc : List Html),
      is_downloadable_file cfg url = false →
      web.html url = some doc →
      selectMain (removeTagsList boilerplateTags doc) = none →
      extract_content cfg web conv st url =
        { st with warns := st.warns ++ ["no-main-content:" ++ url] }) := by
  refine ⟨?_, ?_, ?_, ?_, ?_⟩
  · intro doc m hm
    unfold selectMain
    rw [hm]
  · intro doc a hm ha
    unfold selectMain
    rw [hm, ha]
  · intro doc dv hm ha hc
    unfold selectMain
    rw [hm, ha, hc]
  · intro doc dv hm ha hc hi
    unfold selectMain
    rw [hm, ha, hc, hi]
  · intro cfg web conv st url doc h1 hh hsel
    unfold extract_content
    simp only [h1, Bool.false_eq_true, if_false, hh, hsel]

/-- A crawler instance for the content-extraction scenario. -/
def cfgC9 : Config :=
  { startUrl := "http://c9.test/", maxDepth := 1, excludedPaths := [],
    downloadExtensions := defaultDownloadExtensions,
    contentTypeMapping := defaultContentTypeMapping,
    languagePattern := none, baseDir := "o", hash := fun _ => "h" }

/-- A page whose only content region is a `<section>` carrying class
`content` — an element with class `content` that is not a `div`. -/
def docC9 : List Html :=
  [Html.el "html" [] none none
    [Html.el "section" ["content"] none none [Html.txt "hidden"]]]

/-- The site serving that page. -/
def webC9 : Web :=
  { pages := [], ct := fun _ => none, dl := fun _ => .err,
    html := fun u => if u = "http://c9.test/p" then some docC9 else none }

/-- Counterexample to claim C9 as stated: the page has an element with
class `content` (so the claim's selection rule would pick it and a
content file would be written), but the code looks only for a `div`
with that class: nothing is selected, no file is written and no
counter changes. -/
theorem class_content_not_selected :
    ((findList (fun n => n.hasClass "content")
      (removeTagsList boilerplateTags docC9)).isSome = true) ∧
    ((selectMain (removeTagsList boilerplateTags docC9)).isNone = true) ∧
    ((extract_content cfgC9 webC9 (fun _ => "MD") (initState cfgC9 [] [])
      "http://c9.test/p").fs = []) ∧
    ((extract_content cfgC9 webC9 (fun _ => "MD") (initState cfgC9 [] [])
      "http://c9.test/p").stats = []) := by
  decide

/-- Witness for the amended C9 at the scenario page: extraction leaves
the state unchanged apart from the warning. -/
theorem main_content_selection_witness :
    (is_downloadable_file cfgC9 "http://c9.test/p" = false) ∧
    (webC9.html "http://c9.test/p" = some docC9) ∧
    (selectMain (removeTagsList boilerplateTags docC9) = none) ∧
    (extract_content cfgC9 webC9 (fun _ => "MD") (initState cfgC9 [] [])
        "http://c9.test/p" =
      { initState cfgC9 [] [] with
        warns := (initState cfgC9 [] []).warns ++
          ["no-main-content:" ++ "http://c9.test/p"] }) :=
  ⟨by decide, by rfl, by rfl,
    main_content_selection.2.2.2.2 cfgC9 webC9 (fun _ => "MD") (initState cfgC9 [] [])
      "http://c9.test/p" docC9 (by decide) (by rfl) (by rfl)⟩
